import Mathlib

/-!
Verification of the orchestration and execution-control engine of the
multi-agent-demo repository: the routing state machine (agents/orchestrator.py,
graph.py), the per-agent step functions (agents/planner.py, agents/fe_executor.py,
agents/be_executor.py, agents/validator.py), the security guardrails
(security/guardrails.py), the artifact writer (tools/file_writer.py), the queue
worker (scaling/queue_worker.py) and the fallback model chain
(observability/langfuse_tracer.py, scaling/model_selector.py).

Python dictionaries are modelled as association lists preserving insertion
order, token counts as naturals, and each LLM call as an oracle record
supplying the data the code reads off the response (token usage, parsed
content or schema failure).  Cost fields (floats) carried by the Python state
are not part of any verified property and are omitted from the model.
-/

namespace MultiAgent

/-- Python dict.get(k, 0) on a string-keyed counter map. -/
def getTok : List (String × Nat) → String → Nat
  | [], _ => 0
  | (k, v) :: rest, key => if k = key then v else getTok rest key

/-- Python d[k] = v: replace the first binding of k, else append (insertion order). -/
def setTok : List (String × Nat) → String → Nat → List (String × Nat)
  | [], key, v => [(key, v)]
  | (k, w) :: rest, key, v =>
      if k = key then (key, v) :: rest else (k, w) :: setTok rest key v

/-- agent_tokens[a] = agent_tokens.get(a, 0) + t, as in every agent module. -/
def bumpTok (l : List (String × Nat)) (key : String) (t : Nat) : List (String × Nat) :=
  setTok l key (getTok l key + t)

/-- Sum of the values of a counter map (sum(d.values())). -/
def sumTok : List (String × Nat) → Nat
  | [] => 0
  | (_, v) :: rest => v + sumTok rest

/-- The AgentState TypedDict of state.py, restricted to the fields the verified
claims read or write.  Float-valued cost fields are omitted. -/
structure AgentState where
  job_id : String
  user_id : String
  user_request : String
  spec : String
  pages : List String
  endpoints : List String
  data_models : List String
  fe_code : List (String × String)
  be_code : List (String × String)
  validation_passed : Bool
  validation_report : String
  validation_target : String
  current_agent : String
  retry_count : Nat
  max_retries : Nat
  total_tokens : Nat
  token_budget : Nat
  error : String
  done : Bool
  agent_tokens : List (String × Nat)
  deriving DecidableEq

/-- scaling/config.py: JOB_TOKEN_BUDGET. -/
def JOB_TOKEN_BUDGET : Nat := 200000

/-- scaling/config.py: AGENT_TOKEN_LIMITS (per-agent cumulative token ceilings). -/
def AGENT_TOKEN_LIMITS : List (String × Nat) :=
  [("orchestrator", 2000), ("planner", 10000), ("fe_executor", 30000),
   ("be_executor", 30000), ("validator", 15000)]

/-- AGENT_TOKEN_LIMITS.get(name): none models the float("inf") default, with
which the quota comparison is always false. -/
def lookupLimit : List (String × Nat) → String → Option Nat
  | [], _ => none
  | (k, v) :: rest, key => if k = key then some v else lookupLimit rest key

/-- The initial AgentState built in main.py run_interactive. -/
def initialState (job_id user_id user_request : String) : AgentState :=
  { job_id := job_id
    user_id := user_id
    user_request := user_request
    spec := ""
    pages := []
    endpoints := []
    data_models := []
    fe_code := []
    be_code := []
    validation_passed := false
    validation_report := ""
    validation_target := ""
    current_agent := ""
    retry_count := 0
    max_retries := 3
    total_tokens := 0
    token_budget := JOB_TOKEN_BUDGET
    error := ""
    done := false
    agent_tokens := [] }

/-- Data the orchestrator reads off its environment and LLM response:
the rate-limiter verdict, the reported usage_metadata token counts, and the
parsed routing decision (none models json.JSONDecodeError / KeyError). -/
structure OrchOracle where
  rateLimitOk : Bool
  inputTokens : Nat
  outputTokens : Nat
  decision : Option String
  deriving DecidableEq

/-- agents/orchestrator.py _fallback_routing: deterministic routing when the
LLM response is unparseable. -/
def fallback_routing (s : AgentState) : String :=
  if s.spec = "" then "planner"
  else if s.fe_code = [] then "fe_executor"
  else if s.be_code = [] then "be_executor"
  else if !s.validation_passed && !s.fe_code.isEmpty && !s.be_code.isEmpty then "validator"
  else "done"

/-- agents/orchestrator.py run_orchestrator.  The metrics and rate-limiter
recording calls are side-effect-only and dropped; the prompt-integrity and
sanitize middleware of graph.py _guarded is the identity once prompts are
registered and the request sanitized. -/
def run_orchestrator (s : AgentState) (o : OrchOracle) : AgentState :=
  if !o.rateLimitOk then
    { s with current_agent := "done", done := true, error := "Rate limit exceeded" }
  else if s.max_retries ≤ s.retry_count then
    { s with current_agent := "done", done := true, error := "Max retries exceeded" }
  else if s.token_budget ≤ s.total_tokens then
    { s with current_agent := "done", done := true, error := "Token budget exceeded" }
  else if s.validation_passed then
    { s with current_agent := "done", done := true }
  else
    let tokens_used := o.inputTokens + o.outputTokens
    let agent_tokens := bumpTok s.agent_tokens "orchestrator" tokens_used
    let chosen := match o.decision with
      | some a => a
      | none => fallback_routing s
    let next_agent := match lookupLimit AGENT_TOKEN_LIMITS chosen with
      | some lim => if lim ≤ getTok agent_tokens chosen then "done" else chosen
      | none => chosen
    let base := { s with
      current_agent := next_agent
      total_tokens := s.total_tokens + tokens_used
      agent_tokens := agent_tokens
      done := next_agent = "done" }
    if s.validation_target ≠ "" ∧
        (next_agent = "planner" ∨ next_agent = "fe_executor" ∨ next_agent = "be_executor") then
      { base with retry_count := s.retry_count + 1, validation_target := "" }
    else base

/-- Parsed PlannerOutput (security/schemas.py). -/
structure PlanResult where
  spec : String
  pages : List String
  endpoints : List String
  data_models : List String
  deriving DecidableEq

/-- Planner LLM response: usage counts plus the schema-validation outcome;
errText is str(exc) interpolated into the failure message. -/
structure PlanOracle where
  inputTokens : Nat
  outputTokens : Nat
  result : Option PlanResult
  errText : String
  deriving DecidableEq

/-- agents/planner.py run_planner. -/
def run_planner (s : AgentState) (o : PlanOracle) : AgentState :=
  let tokens_used := o.inputTokens + o.outputTokens
  let agent_tokens := bumpTok s.agent_tokens "planner" tokens_used
  match o.result with
  | some plan =>
      { s with
        spec := plan.spec
        pages := plan.pages
        endpoints := plan.endpoints
        data_models := plan.data_models
        total_tokens := s.total_tokens + tokens_used
        agent_tokens := agent_tokens
        error := "" }
  | none =>
      { s with
        total_tokens := s.total_tokens + tokens_used
        agent_tokens := agent_tokens
        error := "Planner output validation failed: " ++ o.errText }

/-- Executor LLM response: usage counts plus the parsed filename-to-code map
(none models schema failure). -/
structure ExecOracle where
  inputTokens : Nat
  outputTokens : Nat
  result : Option (List (String × String))
  errText : String
  deriving DecidableEq

/-- agents/fe_executor.py run_fe_executor. -/
def run_fe_executor (s : AgentState) (o : ExecOracle) : AgentState :=
  let tokens_used := o.inputTokens + o.outputTokens
  let agent_tokens := bumpTok s.agent_tokens "fe_executor" tokens_used
  match o.result with
  | some code =>
      { s with
        fe_code := code
        total_tokens := s.total_tokens + tokens_used
        agent_tokens := agent_tokens
        error := "" }
  | none =>
      { s with
        total_tokens := s.total_tokens + tokens_used
        agent_tokens := agent_tokens
        error := "FE Executor output validation failed: " ++ o.errText }

/-- agents/be_executor.py run_be_executor. -/
def run_be_executor (s : AgentState) (o : ExecOracle) : AgentState :=
  let tokens_used := o.inputTokens + o.outputTokens
  let agent_tokens := bumpTok s.agent_tokens "be_executor" tokens_used
  match o.result with
  | some code =>
      { s with
        be_code := code
        total_tokens := s.total_tokens + tokens_used
        agent_tokens := agent_tokens
        error := "" }
  | none =>
      { s with
        total_tokens := s.total_tokens + tokens_used
        agent_tokens := agent_tokens
        error := "BE Executor output validation failed: " ++ o.errText }

/-- Parsed ValidatorOutput (security/schemas.py). -/
structure ValResult where
  passed : Bool
  report : String
  target : String
  deriving DecidableEq

/-- Validator LLM response. -/
structure ValOracle where
  inputTokens : Nat
  outputTokens : Nat
  result : Option ValResult
  errText : String
  deriving DecidableEq

/-- agents/validator.py run_validator. -/
def run_validator (s : AgentState) (o : ValOracle) : AgentState :=
  let tokens_used := o.inputTokens + o.outputTokens
  let agent_tokens := bumpTok s.agent_tokens "validator" tokens_used
  match o.result with
  | some res =>
      { s with
        validation_passed := res.passed
        validation_report := res.report
        validation_target := res.target
        total_tokens := s.total_tokens + tokens_used
        agent_tokens := agent_tokens
        error := "" }
  | none =>
      { s with
        validation_passed := false
        validation_report := "Validator output validation failed: " ++ o.errText
        validation_target := "fe_executor"
        total_tokens := s.total_tokens + tokens_used
        agent_tokens := agent_tokens
        error := "Validator output validation failed: " ++ o.errText }

/-- Nodes of the LangGraph graph built in graph.py build_graph, plus the END
sentinel. -/
inductive Node
  | orch
  | planner
  | fe
  | be
  | validator
  | stop
  deriving DecidableEq

/-- graph.py _route_after_orchestrator composed with the conditional-edge map:
route on current_agent, anything unrecognised goes to END. -/
def routeAfterOrchestrator (s : AgentState) : Node :=
  if s.current_agent = "planner" then Node.planner
  else if s.current_agent = "fe_executor" then Node.fe
  else if s.current_agent = "be_executor" then Node.be
  else if s.current_agent = "validator" then Node.validator
  else Node.stop

/-- One scheduled LLM call with its oracle data. -/
inductive Ev
  | orch (o : OrchOracle)
  | plan (o : PlanOracle)
  | fe (o : ExecOracle)
  | be (o : ExecOracle)
  | val (o : ValOracle)

/-- A configuration of the compiled graph: the node about to run plus the
threaded state. -/
abbrev Config := Node × AgentState

/-- One transition of the compiled graph: the entry point is the orchestrator,
the orchestrator routes via its conditional edges, and every agent returns to
the orchestrator (graph.py build_graph).  END (stop) has no transitions. -/
def step : Ev → Config → Option Config
  | Ev.orch o, (Node.orch, s) =>
      let t := run_orchestrator s o
      some (routeAfterOrchestrator t, t)
  | Ev.plan o, (Node.planner, s) => some (Node.orch, run_planner s o)
  | Ev.fe o, (Node.fe, s) => some (Node.orch, run_fe_executor s o)
  | Ev.be o, (Node.be, s) => some (Node.orch, run_be_executor s o)
  | Ev.val o, (Node.validator, s) => some (Node.orch, run_validator s o)
  | _, _ => none

/-- There is an agent transition from c to c' under some LLM behaviour. -/
def Trans (c c' : Config) : Prop := ∃ e, step e c = some c'

/-- An event whose orchestrator call reports at least one token of usage;
non-orchestrator events are unconstrained. -/
def OrchPositive : Ev → Prop
  | Ev.orch o => 1 ≤ o.inputTokens + o.outputTokens
  | _ => True

/-- A transition whose orchestrator calls consume at least one token. -/
def TransPos (c c' : Config) : Prop := ∃ e, step e c = some c' ∧ OrchPositive e

/-- A total run of the graph: transitions while live, stuttering at END. -/
def PRun (f : ℕ → Config) : Prop :=
  (∀ n, (f n).1 = Node.stop → f (n + 1) = f n) ∧
  (∀ n, (f n).1 ≠ Node.stop → TransPos (f n) (f (n + 1)))

/-- The node runs one of the five agent step functions other than the
orchestrator. -/
def AgentNode (nd : Node) : Prop :=
  nd = Node.planner ∨ nd = Node.fe ∨ nd = Node.be ∨ nd = Node.validator

/-- The budget-ledger invariant of the spec: total_tokens equals the sum of the
per-agent token map. -/
def invTok (s : AgentState) : Prop := s.total_tokens = sumTok s.agent_tokens

/-! ### Path sandboxing (security/guardrails.py layer 5, tools/file_writer.py)

Absolute POSIX paths are modelled as segment lists.  The sandbox root
_SANDBOX_ROOT is the resolved absolute path of the repository output/
directory; the installation prefix above the repository directory is
abstracted to a single segment. -/

/-- Resolved absolute path of _SANDBOX_ROOT, as segments. -/
def SANDBOX_ROOT : List String := ["srv", "multi-agent-demo", "output"]

/-- Split a path string on the slash separator. -/
def splitSlashAux (acc : List Char) : List Char → List String
  | [] => [String.mk acc.reverse]
  | c :: rest =>
      if c = '/' then String.mk acc.reverse :: splitSlashAux [] rest
      else splitSlashAux (c :: acc) rest

/-- Segments of a path string. -/
def splitSlash (s : String) : List String := splitSlashAux [] s.toList

/-- Whether the path string is absolute (begins with a slash). -/
def startsSlash (s : String) : Bool :=
  match s.toList with
  | '/' :: _ => true
  | _ => false

/-- Lexical normalisation performed by Path.resolve on a non-existing path:
empty and dot segments vanish, a dotdot segment removes the last component
(staying at the filesystem root when there is none). -/
def resolveSegs (base : List String) : List String → List String
  | [] => base
  | seg :: rest =>
      if seg = "" ∨ seg = "." then resolveSegs base rest
      else if seg = ".." then resolveSegs base.dropLast rest
      else resolveSegs (base ++ [seg]) rest

/-- (_SANDBOX_ROOT / filepath).resolve(): an absolute filepath replaces the
root (pathlib semantics of the / operator), a relative one is joined onto it. -/
def joinResolve (filepath : String) : List String :=
  if startsSlash filepath then resolveSegs [] (splitSlash filepath)
  else resolveSegs SANDBOX_ROOT (splitSlash filepath)

/-- str() of an absolute path given by its segments, as characters. -/
def renderSegs : List String → List Char
  | [] => []
  | [s] => s.toList
  | s :: rest => s.toList ++ '/' :: renderSegs rest

/-- str() of an absolute path. -/
def renderPath (segs : List String) : List Char := '/' :: renderSegs segs

/-- security/guardrails.py sandbox_file_path: resolve the filepath under the
sandbox root and accept iff str(resolved).startswith(str(root)); error models
the raised ValueError. -/
def sandbox_file_path (filepath : String) : Except String (List String) :=
  let resolved := joinResolve filepath
  if (renderPath SANDBOX_ROOT).isPrefixOf (renderPath resolved) then
    Except.ok resolved
  else
    Except.error ("Path traversal blocked: " ++ filepath ++ " resolves outside output/")

/-- The spec's acceptance condition, stated in the spec's own words: the
filepath must resolve, after normalisation, to a path strictly under the fixed
sandbox root (a proper extension of the root's segments). -/
def resolvesInsideSandbox (filepath : String) : Bool :=
  let resolved := joinResolve filepath
  SANDBOX_ROOT.isPrefixOf resolved && !(resolved == SANDBOX_ROOT)

/-- Writes attempted by tools/file_writer.py for one batch of artifacts:
each entry is checked through sandbox_file_path before being written; the
ValueError raised on a violation propagates, so the scan stops there and only
the writes already performed (the accepted strict prefix) have happened. -/
def batchWrites (dirPrefix : String) : List (String × String) →
    List (List String × String) × Option String
  | [] => ([], none)
  | (filepath, code) :: rest =>
      match sandbox_file_path (dirPrefix ++ filepath) with
      | Except.ok dest =>
          let tail := batchWrites dirPrefix rest
          ((dest, code) :: tail.1, tail.2)
      | Except.error e => ([], some e)

/-- tools/file_writer.py write_artifacts: frontend files, then backend files,
then SPEC.md (when a spec exists), then VALIDATION_REPORT.md.  Returns the
writes performed in order, and the ValueError (if one was raised, aborting the
remainder of the batch). -/
def write_artifacts (s : AgentState) : List (List String × String) × Option String :=
  let fe := batchWrites "frontend/" s.fe_code
  match fe.2 with
  | some e => (fe.1, some e)
  | none =>
    let be := batchWrites "backend/" s.be_code
    match be.2 with
    | some e => (fe.1 ++ be.1, some e)
    | none =>
      let specW :=
        if s.spec ≠ "" then
          match sandbox_file_path "SPEC.md" with
          | Except.ok dest => ([(dest, s.spec)], (none : Option String))
          | Except.error e => ([], some e)
        else ([], none)
      match specW.2 with
      | some e => (fe.1 ++ be.1 ++ specW.1, some e)
      | none =>
        let header := "# Validation Report\n\n**Status:** " ++
          (if s.validation_passed then "PASSED" else "FAILED") ++ "\n\n"
        match sandbox_file_path "VALIDATION_REPORT.md" with
        | Except.ok dest =>
            (fe.1 ++ be.1 ++ specW.1 ++ [(dest, header ++ s.validation_report)], none)
        | Except.error e => (fe.1 ++ be.1 ++ specW.1, some e)

/-! ### Queue worker (scaling/queue_worker.py run_worker) -/

/-- Outcome of one body-handling block of the worker loop (lines 122-136). -/
structure WorkerOutcome where
  continues : Bool
  jobOk : Bool
  ackedReceipt : Option String
  deriving DecidableEq

/-- The try/except/finally block of run_worker for one received message:
processing runs inside try, any exception is caught and logged (the loop
continues), and the finally clause calls delete_message whenever a receipt
handle is present - irrespective of whether processing raised. -/
def workerHandle (process : String → Except String Unit) (body : String)
    (receipt : Option String) : WorkerOutcome :=
  let processed := process body
  { continues := true
    jobOk := match processed with
      | Except.ok _ => true
      | Except.error _ => false
    ackedReceipt := receipt }

/-- Redelivery semantics of a durable queue: the received message returns to
the queue unless it was acknowledged (deleted). -/
def queueAfter (rest : List (String × String)) (body receipt : String)
    (out : WorkerOutcome) : List (String × String) :=
  match out.ackedReceipt with
  | some _ => rest
  | none => rest ++ [(body, receipt)]

/-! ### Fallback model chain (scaling/config.py, scaling/model_selector.py,
observability/langfuse_tracer.py traced_call) -/

/-- scaling/config.py MODEL_CHAIN. -/
def MODEL_CHAIN : List String := ["gpt-4o-mini", "gpt-4o", "gpt-3.5-turbo"]

/-- scaling/model_selector.py get_model: the MODEL_OVERRIDE environment
variable forces a model; otherwise walk MODEL_CHAIN by attempt number,
clamping at the last entry. -/
def get_model (override : Option String) (attempt : Nat) : String :=
  match override with
  | some m => m
  | none => MODEL_CHAIN.getD (min attempt (MODEL_CHAIN.length - 1)) ""

/-- Attempt loop of traced_call: attempt 0 uses the ChatOpenAI instance the
calling agent constructed (callerModel); each retry rebuilds the client from
get_model.  ok k tells whether attempt k succeeds.  Returns the models
attempted in order and either the successful model or the last error raised. -/
def tracedLoop (callerModel : String) (override : Option String) (ok : Nat → Bool)
    (attempt : Nat) : Nat → List String × Except String String
  | 0 => ([], Except.error "no attempts")
  | remaining + 1 =>
      let model := if attempt = 0 then callerModel else get_model override attempt
      if ok attempt then ([model], Except.ok model)
      else if remaining = 0 then ([model], Except.error ("API error on " ++ model))
      else
        let tail := tracedLoop callerModel override ok (attempt + 1) remaining
        (model :: tail.1, tail.2)

/-- observability/langfuse_tracer.py traced_call: up to
min(len(MODEL_CHAIN), 3) attempts, surfacing the last error. -/
def traced_call (callerModel : String) (override : Option String)
    (ok : Nat → Bool) : List String × Except String String :=
  tracedLoop callerModel override ok 0 (min MODEL_CHAIN.length 3)

/-! ### Input sanitization (security/guardrails.py layer 2)

The six _INJECTION_PATTERNS are compiled with re.IGNORECASE and applied in
order, each via pattern.sub("[REDACTED]", text), which replaces leftmost
non-overlapping matches.  Each pattern is a concatenation of case-insensitive
literals and whitespace gaps, modelled by a matcher returning the number of
characters the leftmost-anchored match consumes. -/

/-- The regex whitespace class \s on ASCII. -/
def isSpaceCh (c : Char) : Bool :=
  c = ' ' ∨ c = '\t' ∨ c = '\n' ∨ c = '\r' ∨ c = '\x0b' ∨ c = '\x0c'

/-- Length of the greedy \s-run at the head of the input. -/
def spacesCount : List Char → Nat
  | [] => 0
  | c :: cs => if isSpaceCh c then spacesCount cs + 1 else 0

/-- Case-insensitive literal at the head of the input: the pattern p is given
lowercased; consumes exactly p.length characters on success. -/
def litM (p : List Char) (s : List Char) : Option Nat :=
  if (s.take p.length).map Char.toLower = p then some p.length else none

/-- One atom of a pattern: a case-insensitive literal, an optional whitespace
gap (\s*) or a mandatory one (\s+). -/
inductive RItem
  | lit (p : List Char)
  | sp0
  | sp1

/-- Run a concatenation of atoms anchored at the head of the input, returning
the consumed length (greedy whitespace, as the following atom is always a
literal starting with a non-space character, so no backtracking arises). -/
def runItems : List RItem → List Char → Option Nat
  | [], _ => some 0
  | RItem.lit p :: rest, s =>
      (litM p s).bind fun n => (runItems rest (s.drop n)).map (· + n)
  | RItem.sp0 :: rest, s =>
      let k := spacesCount s
      (runItems rest (s.drop k)).map (· + k)
  | RItem.sp1 :: rest, s =>
      let k := spacesCount s
      if k = 0 then none else (runItems rest (s.drop k)).map (· + k)

/-- Pattern r"system\s*:". -/
def mSystemColon : List Char → Option Nat :=
  runItems [RItem.lit "system".toList, RItem.sp0, RItem.lit ":".toList]

/-- Pattern r"<\|im_start\|>". -/
def mImStart : List Char → Option Nat :=
  runItems [RItem.lit "<|im_start|>".toList]

/-- Pattern r"<\|im_end\|>". -/
def mImEnd : List Char → Option Nat :=
  runItems [RItem.lit "<|im_end|>".toList]

/-- Pattern r"<\|endoftext\|>". -/
def mEndOfText : List Char → Option Nat :=
  runItems [RItem.lit "<|endoftext|>".toList]

/-- Pattern "```\s*system" (backquote fence followed by the word system). -/
def mFenceSystem : List Char → Option Nat :=
  runItems [RItem.lit (List.replicate 3 '\x60'), RItem.sp0, RItem.lit "system".toList]

/-- Tail r"previous\s+instructions" of the first pattern. -/
def mPrevTail : List RItem :=
  [RItem.lit "previous".toList, RItem.sp1, RItem.lit "instructions".toList]

/-- Pattern r"ignore\s+(all\s+)?previous\s+instructions".  The optional group
is deterministic: an input position matches the group iff it starts with the
literal all (the groupless alternative, which must read previous at the same
position, is then dead), so the engine commits on that first literal. -/
def mIgnore (s : List Char) : Option Nat :=
  (litM "ignore".toList s).bind fun n1 =>
    let s1 := s.drop n1
    let k := spacesCount s1
    if k = 0 then none
    else
      let s2 := s1.drop k
      (runItems
        (if (litM "all".toList s2).isSome then
          RItem.lit "all".toList :: RItem.sp1 :: mPrevTail
        else mPrevTail) s2).map (fun m => n1 + k + m)

/-- The replacement text of every pattern. -/
def RED : List Char := "[REDACTED]".toList

/-- pattern.sub(repl, s): replace leftmost non-overlapping matches, scanning
left to right and resuming after each match. -/
def subAll (m : List Char → Option Nat) (r : List Char) : List Char → List Char
  | [] => []
  | c :: cs =>
      match m (c :: cs) with
      | some (n + 1) => r ++ subAll m r (cs.drop n)
      | _ => c :: subAll m r cs
termination_by s => s.length
decreasing_by
  · simp only [List.length_cons, List.length_drop]
    omega
  · simp

/-- security/guardrails.py sanitize_input: apply the six patterns in order,
each substituting "[REDACTED]" for its matches. -/
def sanitize_input (text : String) : String :=
  let s1 := subAll mIgnore RED text.toList
  let s2 := subAll mSystemColon RED s1
  let s3 := subAll mImStart RED s2
  let s4 := subAll mImEnd RED s3
  let s5 := subAll mEndOfText RED s4
  let s6 := subAll mFenceSystem RED s5
  String.mk s6

/-- No position of t matches m. -/
def NoMatchIn (m : List Char → Option Nat) (t : List Char) : Prop :=
  ∀ i, m (t.drop i) = none

/-- The properties of a matcher used by the idempotence argument: it rejects
the empty input, consumes at least one and at most all characters, is
determined by the characters it consumes, never consumes an opening bracket,
and cannot start inside the replacement text. -/
structure MatcherOK (m : List Char → Option Nat) : Prop where
  nil : m [] = none
  pos : ∀ s n, m s = some n → 1 ≤ n ∧ n ≤ s.length
  stable : ∀ s n t, m s = some n → m (s.take n ++ t) = some n
  nobr : ∀ s n, m s = some n → '[' ∉ s.take n
  rsafe : ∀ u t, u ≠ [] → u <:+ RED → m (u ++ t) = none

/-- The atom list following a whitespace gap must open with a non-space
literal character (true of every pattern above), so greedy matching of the
gap never needs backtracking. -/
def headNonSpace : List RItem → Bool
  | RItem.lit (c :: _) :: _ => !isSpaceCh c
  | _ => false

/-- Well-formedness of an atom list: literals are non-empty and bracket-free,
and every whitespace gap is followed by a non-space literal. -/
def wfItems : List RItem → Bool
  | [] => true
  | RItem.lit p :: rest => decide (p ≠ []) && decide ('[' ∉ p) && wfItems rest
  | RItem.sp0 :: rest => headNonSpace rest && wfItems rest
  | RItem.sp1 :: rest => headNonSpace rest && wfItems rest

/-- The output of one substitution pass agrees with its input on a common
prefix that extends to the end of the output or to an opening bracket (the
head of the replacement text), so any bracket-free match of the output lying
in that prefix is a match of the input. -/
def AgreeUB (a b : List Char) : Prop :=
  ∃ k, a.take k = b.take k ∧ (a.length = k ∨ a.get? k = some '[')

/-! ### Concrete executions used by counterexamples and witnesses -/

/-- Start state of the zero-token-usage execution. -/
def cexS0 : AgentState := initialState "job-1" "alice" "build a todo app"

/-- After the first orchestrator call (0 tokens, decision planner). -/
def cexS1 : AgentState :=
  { cexS0 with current_agent := "planner", agent_tokens := [("orchestrator", 0)] }

/-- After the planner call (0 tokens, schema-valid output). -/
def cexS2 : AgentState :=
  { cexS1 with
    spec := "the spec"
    agent_tokens := [("orchestrator", 0), ("planner", 0)] }

/-- After the second orchestrator call (0 tokens, decision fe_executor). -/
def cexS3 : AgentState := { cexS2 with current_agent := "fe_executor" }

/-- After the frontend-executor call (0 tokens, schema-valid output). -/
def cexS4 : AgentState :=
  { cexS3 with
    fe_code := [("app.js", "code")]
    agent_tokens := [("orchestrator", 0), ("planner", 0), ("fe_executor", 0)] }

/-- An infinite execution of the graph in which every LLM call reports zero
token usage, the routing decision keeps naming fe_executor, and the frontend
executor keeps returning the same valid artifact: after a three-step prelude
it alternates between the orchestrator and the frontend executor forever. -/
def cexRun : ℕ → Config
  | 0 => (Node.orch, cexS0)
  | 1 => (Node.planner, cexS1)
  | 2 => (Node.orch, cexS2)
  | 3 => (Node.fe, cexS3)
  | n + 4 => if n % 2 = 0 then (Node.orch, cexS4) else (Node.fe, cexS4)

/-- Start state of the witness run for the amended termination theorem. -/
def wS0 : AgentState := initialState "job-2" "bob" "request"

/-- Its state after one orchestrator call (1 token, decision done). -/
def wSDone : AgentState :=
  { wS0 with
    current_agent := "done"
    total_tokens := 1
    agent_tokens := [("orchestrator", 1)]
    done := true }

/-- A terminating run: one positive-usage orchestrator call routes to END. -/
def wRun : ℕ → Config
  | 0 => (Node.orch, wS0)
  | _ + 1 => (Node.stop, wSDone)

/-- A state that has hit the token budget (total_tokens = token_budget). -/
def c3S : AgentState :=
  { initialState "job-3" "carol" "request" with total_tokens := JOB_TOKEN_BUDGET }

/-- A state in which the validator has reported a failure against the frontend
step: artifacts exist, validation failed, retry target fe_executor. -/
def c7S : AgentState :=
  { initialState "job-7" "dave" "request" with
    spec := "the spec"
    fe_code := [("app.js", "fe")]
    be_code := [("main.py", "be")]
    validation_passed := false
    validation_target := "fe_executor" }

/-- A batch in which the first frontend artifact escapes the sandbox and the
second is harmless. -/
def c8S : AgentState :=
  { initialState "job-8" "erin" "request" with
    fe_code := [("../../etc/pwn", "bad"), ("ok.js", "good")] }

/-! ## Theorems -/

/-- Bumping one key of a counter map adds the bump to the sum of its values. -/
theorem sumTok_bumpTok (l : List (String × Nat)) (k : String) (t : Nat) :
    sumTok (bumpTok l k t) = sumTok l + t := by
  induction l with
  | nil => simp [bumpTok, setTok, getTok, sumTok]
  | cons a rest ih =>
      obtain ⟨ak, av⟩ := a
      by_cases h : ak = k
      · subst h
        simp [bumpTok, setTok, getTok, sumTok]
        omega
      · simp only [bumpTok, setTok, getTok, if_neg h, sumTok] at ih ⊢
        omega

/-- A nonempty string literal prefix keeps a concatenation nonempty. -/
theorem append_ne_empty (p t : String) (hp : 0 < p.length) : p ++ t ≠ "" := by
  intro heq
  have hlen := congrArg String.length heq
  rw [String.length_append] at hlen
  rw [show ("" : String).length = 0 from rfl] at hlen
  omega

/-- The orchestrator preserves the token-ledger invariant. -/
theorem invTok_run_orchestrator (s : AgentState) (o : OrchOracle)
    (h : invTok s) : invTok (run_orchestrator s o) := by
  unfold invTok at h ⊢
  unfold run_orchestrator
  split_ifs <;> (try simp_all [sumTok_bumpTok])
  try (split <;> simp_all [sumTok_bumpTok])

/-- The planner preserves the token-ledger invariant. -/
theorem invTok_run_planner (s : AgentState) (o : PlanOracle)
    (h : invTok s) : invTok (run_planner s o) := by
  unfold invTok at h ⊢
  unfold run_planner
  cases hres : o.result <;> simp_all [sumTok_bumpTok]

/-- The frontend executor preserves the token-ledger invariant. -/
theorem invTok_run_fe_executor (s : AgentState) (o : ExecOracle)
    (h : invTok s) : invTok (run_fe_executor s o) := by
  unfold invTok at h ⊢
  unfold run_fe_executor
  cases hres : o.result <;> simp_all [sumTok_bumpTok]

/-- The backend executor preserves the token-ledger invariant. -/
theorem invTok_run_be_executor (s : AgentState) (o : ExecOracle)
    (h : invTok s) : invTok (run_be_executor s o) := by
  unfold invTok at h ⊢
  unfold run_be_executor
  cases hres : o.result <;> simp_all [sumTok_bumpTok]

/-- The validator preserves the token-ledger invariant. -/
theorem invTok_run_validator (s : AgentState) (o : ValOracle)
    (h : invTok s) : invTok (run_validator s o) := by
  unfold invTok at h ⊢
  unfold run_validator
  cases hres : o.result <;> simp_all [sumTok_bumpTok]

/-- Every graph transition preserves the token-ledger invariant. -/
theorem invTok_step (e : Ev) (c c' : Config)
    (hstep : step e c = some c') (h : invTok c.2) : invTok c'.2 := by
  obtain ⟨node, s⟩ := c
  cases e <;> cases node <;> simp only [step] at hstep <;>
    try exact Option.noConfusion hstep
  all_goals obtain rfl := (Option.some.inj hstep).symm
  · exact invTok_run_orchestrator s _ h
  · exact invTok_run_planner s _ h
  · exact invTok_run_fe_executor s _ h
  · exact invTok_run_be_executor s _ h
  · exact invTok_run_validator s _ h

/-- C2: starting from the initial state (total_tokens = 0, empty agent_tokens
map), every state reachable through agent transitions - orchestrator, planner,
fe_executor, be_executor, validator, on success and failure paths alike -
satisfies total_tokens = sum of the values of agent_tokens. -/
theorem C2_total_tokens_invariant (j u r : String) (c : Config)
    (hreach : Relation.ReflTransGen Trans (Node.orch, initialState j u r) c) :
    invTok c.2 := by
  induction hreach with
  | refl => simp [invTok, initialState, sumTok]
  | tail hmid htrans ih =>
      obtain ⟨e, he⟩ := htrans
      exact invTok_step e _ _ he ih

/-- C2 witness: the invariant after a concrete zero-token orchestrator
transition from the initial state. -/
theorem C2_total_tokens_invariant_witness : invTok (Node.planner, cexS1).2 :=
  C2_total_tokens_invariant "job-1" "alice" "build a todo app" (Node.planner, cexS1)
    (Relation.ReflTransGen.single ⟨Ev.orch ⟨true, 0, 0, some "planner"⟩, by decide⟩)

/-- C3 counterexample: when the token budget is hit the orchestrator stops the
job with done = true but writes the non-empty string "Token budget exceeded"
into the error field, so the claimed empty error field is refuted. -/
theorem C3_budget_stop_counterexample :
    (run_orchestrator c3S ⟨true, 0, 0, none⟩).done = true ∧
    (run_orchestrator c3S ⟨true, 0, 0, none⟩).error ≠ "" := by decide

/-- C3 (amended): when a job hits the token budget (no earlier hard stop
applies), the orchestrator terminates it: done = true, current_agent = done,
the partial artifacts spec, fe_code, be_code (and every other field) are left
unchanged, and the budget stop is reported through the error field, which is
set to the non-empty string "Token budget exceeded" rather than left empty. -/
theorem C3_budget_stop_amended (s : AgentState) (o : OrchOracle)
    (hrate : o.rateLimitOk = true) (hretry : s.retry_count < s.max_retries)
    (hbudget : s.token_budget ≤ s.total_tokens) :
    run_orchestrator s o =
      { s with current_agent := "done", done := true, error := "Token budget exceeded" } := by
  have h1 : ¬((!o.rateLimitOk) = true) := by simp [hrate]
  have h2 : ¬(s.max_retries ≤ s.retry_count) := Nat.not_le.mpr hretry
  simp only [run_orchestrator, if_neg h1, if_neg h2, if_pos hbudget]

/-- C3 witness: the amended budget stop evaluated on a concrete state whose
total_tokens equals the 200000-token budget. -/
theorem C3_budget_stop_amended_witness :
    run_orchestrator c3S ⟨true, 0, 0, none⟩ =
      { c3S with current_agent := "done", done := true, error := "Token budget exceeded" } :=
  C3_budget_stop_amended c3S ⟨true, 0, 0, none⟩ rfl (by decide) (by decide)

/-- C10: whenever the validator's own output fails schema validation, the
resulting state has validation_passed = false, validation_target =
"fe_executor" and a non-empty error, regardless of the incoming state. -/
theorem C10_validator_failure_targets_fe (s : AgentState) (o : ValOracle)
    (h : o.result = none) :
    (run_validator s o).validation_passed = false ∧
    (run_validator s o).validation_target = "fe_executor" ∧
    (run_validator s o).error ≠ "" := by
  unfold run_validator
  rw [h]
  refine ⟨rfl, rfl, ?_⟩
  exact append_ne_empty "Validator output validation failed: " o.errText (by decide)

/-- C10 witness: a concrete validator schema failure. -/
theorem C10_validator_failure_targets_fe_witness :
    (run_validator c7S ⟨3, 4, none, "not valid json"⟩).validation_passed = false ∧
    (run_validator c7S ⟨3, 4, none, "not valid json"⟩).validation_target = "fe_executor" ∧
    (run_validator c7S ⟨3, 4, none, "not valid json"⟩).error ≠ "" :=
  C10_validator_failure_targets_fe c7S ⟨3, 4, none, "not valid json"⟩ rfl

/-- C7 counterexample: in a state where the validator reported passed = false
with retry target fe_executor and no hard stop applies, an unparseable routing
decision makes the orchestrator dispatch the validator again (the fallback
routing, not the retry target), leaving retry_count unchanged and the
validation_target uncleared - refuting the claim that the next dispatched step
is always the target with retry_count incremented. -/
theorem C7_retry_dispatch_counterexample :
    (run_orchestrator c7S ⟨true, 0, 0, none⟩).current_agent = "validator" ∧
    (run_orchestrator c7S ⟨true, 0, 0, none⟩).retry_count = c7S.retry_count ∧
    (run_orchestrator c7S ⟨true, 0, 0, none⟩).validation_target = "fe_executor" := by
  decide

/-- C7 (amended): when the validator has reported a failure with a non-empty
retry target, no hard stop applies, and the orchestrator's parsed routing
decision names a generative step (planner, fe_executor or be_executor) whose
quota is not exhausted, the orchestrator dispatches the decided step,
increments retry_count by exactly one, and clears validation_target. -/
theorem C7_retry_dispatch_amended (s : AgentState) (o : OrchOracle) (tgt : String)
    (hrate : o.rateLimitOk = true)
    (hretry : s.retry_count < s.max_retries)
    (hbudget : s.total_tokens < s.token_budget)
    (hpassed : s.validation_passed = false)
    (htarget : s.validation_target ≠ "")
    (hdec : o.decision = some tgt)
    (htgt : tgt = "planner" ∨ tgt = "fe_executor" ∨ tgt = "be_executor")
    (hquota : ∀ lim, lookupLimit AGENT_TOKEN_LIMITS tgt = some lim →
        getTok (bumpTok s.agent_tokens "orchestrator" (o.inputTokens + o.outputTokens)) tgt < lim) :
    (run_orchestrator s o).current_agent = tgt ∧
    (run_orchestrator s o).retry_count = s.retry_count + 1 ∧
    (run_orchestrator s o).validation_target = "" ∧
    (run_orchestrator s o).done = false := by
  have h1 : ¬((!o.rateLimitOk) = true) := by simp [hrate]
  have h2 : ¬(s.max_retries ≤ s.retry_count) := Nat.not_le.mpr hretry
  have h3 : ¬(s.token_budget ≤ s.total_tokens) := Nat.not_le.mpr hbudget
  have h4 : ¬(s.validation_passed = true) := by simp [hpassed]
  rcases htgt with rfl | rfl | rfl
  · have hq := hquota 10000 rfl
    simp only [run_orchestrator, if_neg h1, if_neg h2, if_neg h3, if_neg h4, hdec,
      show lookupLimit AGENT_TOKEN_LIMITS "planner" = some 10000 from rfl]
    rw [if_neg (Nat.not_le.mpr hq), if_pos ⟨htarget, Or.inl rfl⟩]
    exact ⟨rfl, rfl, rfl, rfl⟩
  · have hq := hquota 30000 rfl
    simp only [run_orchestrator, if_neg h1, if_neg h2, if_neg h3, if_neg h4, hdec,
      show lookupLimit AGENT_TOKEN_LIMITS "fe_executor" = some 30000 from rfl]
    rw [if_neg (Nat.not_le.mpr hq), if_pos ⟨htarget, Or.inr (Or.inl rfl)⟩]
    exact ⟨rfl, rfl, rfl, rfl⟩
  · have hq := hquota 30000 rfl
    simp only [run_orchestrator, if_neg h1, if_neg h2, if_neg h3, if_neg h4, hdec,
      show lookupLimit AGENT_TOKEN_LIMITS "be_executor" = some 30000 from rfl]
    rw [if_neg (Nat.not_le.mpr hq), if_pos ⟨htarget, Or.inr (Or.inr rfl)⟩]
    exact ⟨rfl, rfl, rfl, rfl⟩

/-- C7 witness: a concrete routing decision naming the reported target. -/
theorem C7_retry_dispatch_amended_witness :
    (run_orchestrator c7S ⟨true, 7, 5, some "fe_executor"⟩).current_agent = "fe_executor" ∧
    (run_orchestrator c7S ⟨true, 7, 5, some "fe_executor"⟩).retry_count = c7S.retry_count + 1 ∧
    (run_orchestrator c7S ⟨true, 7, 5, some "fe_executor"⟩).validation_target = "" ∧
    (run_orchestrator c7S ⟨true, 7, 5, some "fe_executor"⟩).done = false :=
  C7_retry_dispatch_amended c7S ⟨true, 7, 5, some "fe_executor"⟩ "fe_executor"
    rfl (by decide) (by decide) rfl (by decide) rfl (Or.inr (Or.inl rfl))
    (by
      intro lim hlim
      rw [show lookupLimit AGENT_TOKEN_LIMITS "fe_executor" = some 30000 from rfl] at hlim
      have hval := Option.some.inj hlim
      subst hval
      decide)

/-- C4 counterexample: a message whose processing raises is still acknowledged
- the delete call sits in a finally block - so a durable queue would not
redeliver it, refuting the claim that failed messages are not acknowledged. -/
theorem C4_ack_on_exception_counterexample :
    (workerHandle (fun _ => Except.error "boom") "body" (some "receipt-1")).jobOk = false ∧
    (workerHandle (fun _ => Except.error "boom") "body" (some "receipt-1")).ackedReceipt
      = some "receipt-1" ∧
    queueAfter [] "body" "receipt-1"
      (workerHandle (fun _ => Except.error "boom") "body" (some "receipt-1")) = [] :=
  ⟨rfl, rfl, rfl⟩

/-- C4 (amended): the worker acknowledges every received message with a
receipt handle, whether or not processing raised (the delete call is in a
finally block), so the message never returns to a durable queue; the worker
does continue to the next poll iteration in both cases. -/
theorem C4_always_acks_amended (process : String → Except String Unit)
    (body r : String) (rest : List (String × String)) :
    (workerHandle process body (some r)).continues = true ∧
    (workerHandle process body (some r)).ackedReceipt = some r ∧
    queueAfter rest body r (workerHandle process body (some r)) = rest :=
  ⟨rfl, rfl, rfl⟩

/-- C5: the sandbox check accepts the traversal path ../output2/pwn although
it resolves outside the sandbox root, because str(resolved).startswith(
str(root)) is a string-prefix test and the sibling directory output2 shares
the prefix "output" - contradicting the function's own contract of raising
ValueError on paths resolving outside output/. -/
theorem C5_sandbox_prefix_bug :
    (sandbox_file_path "../output2/pwn").isOk = true ∧
    resolvesInsideSandbox "../output2/pwn" = false ∧
    joinResolve "../output2/pwn" = ["srv", "multi-agent-demo", "output2", "pwn"] := by
  decide

/-- C8 counterexample: when the first frontend artifact of a batch fails the
sandbox check, write_artifacts raises and performs no further write - in
particular the harmless second file ok.js is not written - refuting the claim
that the other writes in the batch still proceed. -/
theorem C8_batch_abort_counterexample :
    (write_artifacts c8S).1 = [] ∧ (write_artifacts c8S).2.isSome = true := by
  decide

/-- An accepted path is returned resolved. -/
theorem sandbox_ok_of_isOk (fp : String) (h : (sandbox_file_path fp).isOk = true) :
    sandbox_file_path fp = Except.ok (joinResolve fp) := by
  by_cases hc : (renderPath SANDBOX_ROOT).isPrefixOf (renderPath (joinResolve fp)) = true
  · simp only [sandbox_file_path, if_pos hc]
  · simp only [sandbox_file_path, if_neg hc] at h
    simp [Except.isOk, Except.toBool] at h

/-- C8 (amended): a path violation inside a batch aborts the batch at the
offending entry: the entries before it are written (to their resolved
destinations), the offending entry and all later ones are not, and the
path-violation error is raised. -/
theorem C8_batch_abort_amended (dir : String) (pre : List (String × String))
    (bad : String × String) (rest : List (String × String))
    (hpre : ∀ p ∈ pre, (sandbox_file_path (dir ++ p.1)).isOk = true)
    (hbad : (sandbox_file_path (dir ++ bad.1)).isOk = false) :
    (batchWrites dir (pre ++ bad :: rest)).1 =
      pre.map (fun p => (joinResolve (dir ++ p.1), p.2)) ∧
    (batchWrites dir (pre ++ bad :: rest)).2.isSome = true := by
  induction pre with
  | nil =>
      simp only [List.nil_append, List.map_nil]
      obtain ⟨bfp, bcode⟩ := bad
      cases hres : sandbox_file_path (dir ++ bfp) with
      | ok v => simp [Except.isOk, Except.toBool, hres] at hbad
      | error e => simp [batchWrites, hres]
  | cons p pre ih =>
      obtain ⟨pfp, pcode⟩ := p
      have hok := hpre ⟨pfp, pcode⟩ (List.mem_cons_self _ _)
      have heq := sandbox_ok_of_isOk (dir ++ pfp) hok
      have hih := ih (fun q hq => hpre q (List.mem_cons_of_mem _ hq))
      refine ⟨?_, ?_⟩ <;> simp [batchWrites, heq, hih.1, hih.2]

/-- C8 witness: a good entry followed by an escaping one - the good entry is
written, the batch then aborts. -/
theorem C8_batch_abort_amended_witness :
    (batchWrites "frontend/" ([("ok.js", "good")] ++ ("../../etc/pwn", "bad") :: [])).1 =
      [("ok.js", "good")].map (fun p => (joinResolve ("frontend/" ++ p.1), p.2)) ∧
    (batchWrites "frontend/" ([("ok.js", "good")] ++ ("../../etc/pwn", "bad") :: [])).2.isSome
      = true :=
  C8_batch_abort_amended "frontend/" [("ok.js", "good")] ("../../etc/pwn", "bad") []
    (by decide) (by decide)

/-- C6 counterexample: with an operator override set, an agent that hardcodes
its model (planner, fe_executor, orchestrator pass gpt-4o-mini) still performs
its first attempt on the hardcoded model, not the override - refuting the
claim that the override is used for every attempt including the first. -/
theorem C6_override_first_attempt_counterexample :
    (traced_call "gpt-4o-mini" (some "forced-model") (fun _ => true)).1 = ["gpt-4o-mini"] ∧
    "gpt-4o-mini" ≠ "forced-model" := by
  decide

/-- C6 (amended): a single step invocation makes at most min(chain length, 3)
backend attempts; the first attempt always uses the model of the ChatOpenAI
instance the caller constructed (which honours the override only for agents
that select it through get_model); every retry attempt k >= 1 uses
get_model(override, k) - the override when set, else the chain walked by
attempt index; and when every attempt fails, the chain is exhausted and the
last error is surfaced to the caller. -/
theorem C6_fallback_chain_amended (cm : String) (ov : Option String) (ok : Nat → Bool) :
    (traced_call cm ov ok).1.length ≤ min MODEL_CHAIN.length 3 ∧
    (traced_call cm ov ok).1.head? = some cm ∧
    (∀ k, 1 ≤ k →
        (traced_call cm ov ok).1.get? k = none ∨
        (traced_call cm ov ok).1.get? k = some (get_model ov k)) ∧
    ((∀ k, ok k = false) →
        (traced_call cm ov ok).1.length = min MODEL_CHAIN.length 3 ∧
        (traced_call cm ov ok).2 = Except.error ("API error on " ++ get_model ov 2)) := by
  cases h0 : ok 0 with
  | true =>
      have htc : traced_call cm ov ok = ([cm], Except.ok cm) := by
        simp [traced_call, tracedLoop, MODEL_CHAIN, h0]
      refine ⟨by simp [htc, MODEL_CHAIN], by simp [htc], ?_, ?_⟩
      · intro k hk
        left
        rcases k with _ | k
        · omega
        · simp [htc]
      · intro hall
        rw [hall 0] at h0
        exact absurd h0 (by simp)
  | false =>
      cases h1 : ok 1 with
      | true =>
          have htc : traced_call cm ov ok =
              ([cm, get_model ov 1], Except.ok (get_model ov 1)) := by
            simp [traced_call, tracedLoop, MODEL_CHAIN, h0, h1]
          refine ⟨by simp [htc, MODEL_CHAIN], by simp [htc], ?_, ?_⟩
          · intro k hk
            rcases k with _ | _ | k
            · omega
            · right
              simp [htc]
            · left
              simp [htc]
          · intro hall
            rw [hall 1] at h1
            exact absurd h1 (by simp)
      | false =>
          cases h2 : ok 2 with
          | true =>
              have htc : traced_call cm ov ok =
                  ([cm, get_model ov 1, get_model ov 2], Except.ok (get_model ov 2)) := by
                simp [traced_call, tracedLoop, MODEL_CHAIN, h0, h1, h2]
              refine ⟨by simp [htc, MODEL_CHAIN], by simp [htc], ?_, ?_⟩
              · intro k hk
                rcases k with _ | _ | _ | k
                · omega
                · right
                  simp [htc]
                · right
                  simp [htc]
                · left
                  simp [htc]
              · intro hall
                rw [hall 2] at h2
                exact absurd h2 (by simp)
          | false =>
              have htc : traced_call cm ov ok =
                  ([cm, get_model ov 1, get_model ov 2],
                    Except.error ("API error on " ++ get_model ov 2)) := by
                simp [traced_call, tracedLoop, MODEL_CHAIN, h0, h1, h2]
              refine ⟨by simp [htc, MODEL_CHAIN], by simp [htc], ?_, ?_⟩
              · intro k hk
                rcases k with _ | _ | _ | k
                · omega
                · right
                  simp [htc]
                · right
                  simp [htc]
                · left
                  simp [htc]
              · intro hall
                exact ⟨by simp [htc, MODEL_CHAIN], by simp [htc]⟩

/-- C6 witness: every attempt failing on the default chain with no override -
three attempts, last error surfaced, retries walking the chain. -/
theorem C6_fallback_chain_amended_witness :
    ((traced_call "gpt-4o-mini" none (fun _ => false)).1.get? 1 = none ∨
      (traced_call "gpt-4o-mini" none (fun _ => false)).1.get? 1 = some (get_model none 1)) ∧
    ((traced_call "gpt-4o-mini" none (fun _ => false)).1.length = min MODEL_CHAIN.length 3 ∧
      (traced_call "gpt-4o-mini" none (fun _ => false)).2 =
        Except.error ("API error on " ++ get_model none 2)) :=
  ⟨(C6_fallback_chain_amended "gpt-4o-mini" none (fun _ => false)).2.2.1 1 (by decide),
   (C6_fallback_chain_amended "gpt-4o-mini" none (fun _ => false)).2.2.2 (fun k => rfl)⟩

/-- C1 counterexample: the claimed bounds do not force termination - there is
an infinite sequence of agent transitions from the initial state along which
no stop condition ever fires, because every LLM call may report zero token
usage (empty usage_metadata) while the routing decision keeps naming
fe_executor: retry_count never increments (no validation failure is recorded),
total_tokens and every per-agent counter stay at 0, and validation never
passes, so the run alternates orchestrator and fe_executor forever. -/
theorem C1_termination_counterexample :
    ∃ f : ℕ → Config,
      f 0 = (Node.orch, initialState "job-1" "alice" "build a todo app") ∧
      (∀ n, Trans (f n) (f (n + 1))) ∧
      (∀ n, (f n).2.done = false) := by
  refine ⟨cexRun, rfl, ?_, ?_⟩
  · intro n
    match n with
    | 0 => exact ⟨Ev.orch ⟨true, 0, 0, some "planner"⟩, by decide⟩
    | 1 => exact ⟨Ev.plan ⟨0, 0, some ⟨"the spec", [], [], []⟩, ""⟩, by decide⟩
    | 2 => exact ⟨Ev.orch ⟨true, 0, 0, some "fe_executor"⟩, by decide⟩
    | 3 => exact ⟨Ev.fe ⟨0, 0, some [("app.js", "code")], ""⟩, by decide⟩
    | (n + 4) =>
        have h4 : cexRun (n + 4) =
            if n % 2 = 0 then (Node.orch, cexS4) else (Node.fe, cexS4) := rfl
        have h5 : cexRun (n + 5) =
            if (n + 1) % 2 = 0 then (Node.orch, cexS4) else (Node.fe, cexS4) := rfl
        rcases Nat.mod_two_eq_zero_or_one n with h | h
        · rw [show n + 4 + 1 = n + 5 from rfl, h4, h5, if_pos h, if_neg (by omega)]
          exact ⟨Ev.orch ⟨true, 0, 0, some "fe_executor"⟩, by decide⟩
        · rw [show n + 4 + 1 = n + 5 from rfl, h4, h5, if_neg (by omega), if_pos (by omega)]
          exact ⟨Ev.fe ⟨0, 0, some [("app.js", "code")], ""⟩, by decide⟩
  · intro n
    match n with
    | 0 => decide
    | 1 => decide
    | 2 => decide
    | 3 => decide
    | (n + 4) =>
        have h4 : cexRun (n + 4) =
            if n % 2 = 0 then (Node.orch, cexS4) else (Node.fe, cexS4) := rfl
        rw [h4]
        rcases Nat.mod_two_eq_zero_or_one n with h | h
        · rw [if_pos h]
          decide
        · rw [if_neg (by omega)]
          decide

/-- A live orchestrator outcome (one not routed to END) comes from the
generative branch: the budget test passed and the usage was merged. -/
theorem run_orchestrator_live (s : AgentState) (o : OrchOracle)
    (h : (run_orchestrator s o).current_agent ≠ "done") :
    s.total_tokens < s.token_budget ∧
    (run_orchestrator s o).total_tokens = s.total_tokens + (o.inputTokens + o.outputTokens) ∧
    (run_orchestrator s o).token_budget = s.token_budget := by
  unfold run_orchestrator at h ⊢
  split_ifs at h ⊢ with h1 h2 h3 h4
  · exact absurd rfl h
  · exact absurd rfl h
  · exact absurd rfl h
  · exact absurd rfl h
  · dsimp only
    refine ⟨by omega, ?_, ?_⟩ <;> (repeat' split) <;> rfl

/-- A routing result other than END names one of the four agent nodes and
hence a current_agent other than the done sentinel. -/
theorem route_live (t : AgentState) (h : routeAfterOrchestrator t ≠ Node.stop) :
    AgentNode (routeAfterOrchestrator t) ∧ t.current_agent ≠ "done" := by
  unfold routeAfterOrchestrator at h ⊢
  split_ifs at h ⊢ with h1 h2 h3 h4
  · exact ⟨Or.inl rfl, fun hd => by rw [hd] at h1; exact absurd h1 (by decide)⟩
  · exact ⟨Or.inr (Or.inl rfl), fun hd => by rw [hd] at h2; exact absurd h2 (by decide)⟩
  · exact ⟨Or.inr (Or.inr (Or.inl rfl)), fun hd => by rw [hd] at h3; exact absurd h3 (by decide)⟩
  · exact ⟨Or.inr (Or.inr (Or.inr rfl)), fun hd => by rw [hd] at h4; exact absurd h4 (by decide)⟩
  · exact absurd rfl h

/-- Token and budget bookkeeping of the planner step. -/
theorem run_planner_tokens (s : AgentState) (o : PlanOracle) :
    (run_planner s o).total_tokens = s.total_tokens + (o.inputTokens + o.outputTokens) ∧
    (run_planner s o).token_budget = s.token_budget := by
  unfold run_planner
  cases hres : o.result <;> simp

/-- Token and budget bookkeeping of the frontend executor step. -/
theorem run_fe_executor_tokens (s : AgentState) (o : ExecOracle) :
    (run_fe_executor s o).total_tokens = s.total_tokens + (o.inputTokens + o.outputTokens) ∧
    (run_fe_executor s o).token_budget = s.token_budget := by
  unfold run_fe_executor
  cases hres : o.result <;> simp

/-- Token and budget bookkeeping of the backend executor step. -/
theorem run_be_executor_tokens (s : AgentState) (o : ExecOracle) :
    (run_be_executor s o).total_tokens = s.total_tokens + (o.inputTokens + o.outputTokens) ∧
    (run_be_executor s o).token_budget = s.token_budget := by
  unfold run_be_executor
  cases hres : o.result <;> simp

/-- Token and budget bookkeeping of the validator step. -/
theorem run_validator_tokens (s : AgentState) (o : ValOracle) :
    (run_validator s o).total_tokens = s.total_tokens + (o.inputTokens + o.outputTokens) ∧
    (run_validator s o).token_budget = s.token_budget := by
  unfold run_validator
  cases hres : o.result <;> simp

/-- A positive-usage transition out of the orchestrator node that does not end
the run strictly increases total_tokens, certifies the budget was not yet
exhausted, preserves the budget, and lands on an agent node. -/
theorem transPos_orch (s : AgentState) (c' : Config)
    (h : TransPos (Node.orch, s) c') (hns : c'.1 ≠ Node.stop) :
    s.total_tokens < s.token_budget ∧
    c'.2.token_budget = s.token_budget ∧
    s.total_tokens + 1 ≤ c'.2.total_tokens ∧
    AgentNode c'.1 := by
  obtain ⟨e, he, hpos⟩ := h
  cases e <;> simp only [step] at he <;> try exact Option.noConfusion he
  rename_i o
  obtain rfl := (Option.some.inj he).symm
  have hdone := (route_live (run_orchestrator s o) hns).2
  have hlive := run_orchestrator_live s o hdone
  have hpos' : 1 ≤ o.inputTokens + o.outputTokens := hpos
  refine ⟨hlive.1, ?_, ?_, (route_live (run_orchestrator s o) hns).1⟩
  · dsimp only
    exact hlive.2.2
  · dsimp only
    omega

/-- A transition out of an agent node returns to the orchestrator without
decreasing total_tokens and without touching the budget. -/
theorem transPos_agent (nd : Node) (s : AgentState) (c' : Config)
    (hnd : AgentNode nd) (h : TransPos (nd, s) c') :
    c'.1 = Node.orch ∧
    s.total_tokens ≤ c'.2.total_tokens ∧
    c'.2.token_budget = s.token_budget := by
  obtain ⟨e, he, -⟩ := h
  rcases hnd with rfl | rfl | rfl | rfl <;>
    cases e <;> simp only [step] at he <;> try exact Option.noConfusion he
  · rename_i o
    obtain rfl := (Option.some.inj he).symm
    obtain ⟨ht, hb⟩ := run_planner_tokens s o
    exact ⟨rfl, by dsimp only; omega, by dsimp only; exact hb⟩
  · rename_i o
    obtain rfl := (Option.some.inj he).symm
    obtain ⟨ht, hb⟩ := run_fe_executor_tokens s o
    exact ⟨rfl, by dsimp only; omega, by dsimp only; exact hb⟩
  · rename_i o
    obtain rfl := (Option.some.inj he).symm
    obtain ⟨ht, hb⟩ := run_be_executor_tokens s o
    exact ⟨rfl, by dsimp only; omega, by dsimp only; exact hb⟩
  · rename_i o
    obtain rfl := (Option.some.inj he).symm
    obtain ⟨ht, hb⟩ := run_validator_tokens s o
    exact ⟨rfl, by dsimp only; omega, by dsimp only; exact hb⟩

/-- C1 (amended): under the additional assumption that every orchestrator
invocation reports at least one token of usage, the loop does terminate:
every total run of the graph starting at the orchestrator reaches END within
2 * token_budget + 3 steps, because each orchestrator visit either stops the
job (budget, retries, rate limit, success or quota) or strictly increases
total_tokens while the budget check caps total_tokens below token_budget.
With zero-usage calls permitted, the counterexample run above shows the
claimed bounds alone do not force termination. -/
theorem C1_termination_amended (f : ℕ → Config) (hrun : PRun f)
    (hstart : (f 0).1 = Node.orch) :
    ∃ n, n ≤ 2 * (f 0).2.token_budget + 3 ∧ (f n).1 = Node.stop := by
  by_contra hcon
  push_neg at hcon
  set B := (f 0).2.token_budget with hB
  have key : ∀ k, 2 * k + 1 ≤ 2 * B + 3 →
      (f (2 * k)).1 = Node.orch ∧
      k ≤ (f (2 * k)).2.total_tokens ∧
      (f (2 * k)).2.token_budget = B := by
    intro k
    induction k with
    | zero => exact fun _ => ⟨hstart, Nat.zero_le _, rfl⟩
    | succ k ih =>
        intro hk
        obtain ⟨horch, htok, hbud⟩ := ih (by omega)
        have hstep1 := hrun.2 (2 * k) (hcon (2 * k) (by omega))
        rw [show f (2 * k) = (Node.orch, (f (2 * k)).2) from by rw [← horch]] at hstep1
        have hns1 : (f (2 * k + 1)).1 ≠ Node.stop := hcon (2 * k + 1) (by omega)
        obtain ⟨hlt, hbud1, htok1, hagent⟩ := transPos_orch _ _ hstep1 hns1
        have hstep2 := hrun.2 (2 * k + 1) hns1
        rw [show f (2 * k + 1) = ((f (2 * k + 1)).1, (f (2 * k + 1)).2) from rfl] at hstep2
        obtain ⟨horch2, htok2, hbud2⟩ := transPos_agent _ _ _ hagent hstep2
        have hidx : 2 * (k + 1) = 2 * k + 1 + 1 := by omega
        refine ⟨by rw [hidx]; exact horch2, by rw [hidx]; omega, ?_⟩
        rw [hidx, hbud2, hbud1]
        exact hbud
  obtain ⟨horch, htok, hbud⟩ := key (B + 1) (by omega)
  have hstep := hrun.2 (2 * (B + 1)) (hcon (2 * (B + 1)) (by omega))
  rw [show f (2 * (B + 1)) = (Node.orch, (f (2 * (B + 1))).2) from by rw [← horch]] at hstep
  have hns : (f (2 * (B + 1) + 1)).1 ≠ Node.stop := hcon (2 * (B + 1) + 1) (by omega)
  obtain ⟨hlt, -, -, -⟩ := transPos_orch _ _ hstep hns
  omega

/-- C1 witness: a concrete terminating run - one positive-usage orchestrator
call whose decision is done routes straight to END. -/
theorem C1_termination_amended_witness :
    ∃ n, n ≤ 2 * (wRun 0).2.token_budget + 3 ∧ (wRun n).1 = Node.stop := by
  refine C1_termination_amended wRun ⟨?_, ?_⟩ rfl
  · intro n hst
    match n with
    | 0 => exact Node.noConfusion hst
    | n + 1 => rfl
  · intro n hns
    match n with
    | 0 => exact ⟨Ev.orch ⟨true, 1, 0, some "done"⟩, by decide, Nat.le.refl⟩
    | n + 1 => exact absurd rfl hns

/-! ### Sanitizer idempotence (C9) -/

/-- Characterisation of a literal match. -/
theorem litM_eq_some {p s : List Char} {n : Nat} :
    litM p s = some n ↔ n = p.length ∧ (s.take p.length).map Char.toLower = p := by
  unfold litM
  split_ifs with h
  · constructor
    · intro he
      exact ⟨(Option.some.inj he).symm, h⟩
    · intro hc
      rw [hc.1]
  · constructor
    · intro he
      cases he
    · intro hc
      exact absurd hc.2 h

/-- A literal match needs at least the pattern's length of input. -/
theorem litM_length_le {p s : List Char} {n : Nat} (h : litM p s = some n) :
    p.length ≤ s.length := by
  obtain ⟨hn, hmap⟩ := litM_eq_some.mp h
  have hlen := congrArg List.length hmap
  simp only [List.length_map, List.length_take] at hlen
  omega

/-- A literal match consumes exactly the pattern's length. -/
theorem litM_len {p s : List Char} {n : Nat} (h : litM p s = some n) : n = p.length :=
  (litM_eq_some.mp h).1

/-- A literal match is determined by the consumed characters. -/
theorem litM_stable {p s : List Char} {n : Nat} (u : List Char)
    (h : litM p s = some n) : litM p (s.take n ++ u) = some n := by
  obtain ⟨hn, hmap⟩ := litM_eq_some.mp h
  subst hn
  apply litM_eq_some.mpr
  refine ⟨rfl, ?_⟩
  have hlen : (s.take p.length).length = p.length := by
    rw [List.length_take]
    exact min_eq_left (litM_length_le h)
  rw [List.take_left' hlen, hmap]

/-- Non-empty literals reject empty input. -/
theorem litM_nil {p : List Char} (hp : p ≠ []) : litM p [] = none := by
  unfold litM
  cases p with
  | nil => exact absurd rfl hp
  | cons p0 p' => simp

/-- The first consumed character lowercases to the pattern head. -/
theorem litM_head {p0 : Char} {p' : List Char} {c : Char} {cs : List Char} {n : Nat}
    (h : litM (p0 :: p') (c :: cs) = some n) : Char.toLower c = p0 := by
  obtain ⟨-, hmap⟩ := litM_eq_some.mp h
  rw [show (p0 :: p').length = p'.length + 1 from rfl, List.take_succ_cons,
    List.map_cons] at hmap
  exact (List.cons.inj hmap).1

/-- Head mismatch kills a literal match. -/
theorem litM_head_ne {p0 : Char} {p' : List Char} {c : Char} {cs : List Char}
    (h : Char.toLower c ≠ p0) : litM (p0 :: p') (c :: cs) = none := by
  cases hm : litM (p0 :: p') (c :: cs) with
  | none => rfl
  | some n => exact absurd (litM_head hm) h

/-- Bracket-free literals consume no opening bracket. -/
theorem litM_nobr {p s : List Char} {n : Nat} (hp : '[' ∉ p)
    (h : litM p s = some n) : '[' ∉ s.take n := by
  obtain ⟨hn, hmap⟩ := litM_eq_some.mp h
  subst hn
  intro hmem
  have hml := List.mem_map_of_mem Char.toLower hmem
  rw [hmap] at hml
  rw [show Char.toLower '[' = '[' by decide] at hml
  exact hp hml

/-- Whitespace characters are fixed by toLower. -/
theorem toLower_space {c : Char} (h : isSpaceCh c = true) : Char.toLower c = c := by
  simp only [isSpaceCh, decide_eq_true_eq] at h
  rcases h with rfl | rfl | rfl | rfl | rfl | rfl <;> decide

/-- A character lowercasing to a non-space character is itself non-space. -/
theorem nonspace_of_toLower {c p0 : Char} (hp : isSpaceCh p0 = false)
    (h : Char.toLower c = p0) : isSpaceCh c = false := by
  cases hcs : isSpaceCh c with
  | false => rfl
  | true =>
      rw [toLower_space hcs] at h
      subst h
      rw [hcs] at hp
      exact Bool.noConfusion hp

/-- Unfolding equation for the space run on a cons cell. -/
theorem spacesCount_cons (c : Char) (t : List Char) :
    spacesCount (c :: t) = if isSpaceCh c then spacesCount t + 1 else 0 := rfl

/-- The greedy space run is bounded by the input length. -/
theorem spacesCount_le (s : List Char) : spacesCount s ≤ s.length := by
  induction s with
  | nil => simp [spacesCount]
  | cons c cs ih =>
      rw [spacesCount_cons]
      split_ifs
      · simp only [List.length_cons]
        omega
      · exact Nat.zero_le _

/-- Every character inside the greedy space run is whitespace. -/
theorem spacesCount_take_spaces (s : List Char) :
    ∀ c ∈ s.take (spacesCount s), isSpaceCh c = true := by
  induction s with
  | nil => simp
  | cons c cs ih =>
      rw [spacesCount_cons]
      split_ifs with h
      · intro d hd
        rw [List.take_succ_cons] at hd
        rcases List.mem_cons.mp hd with rfl | hd'
        · exact h
        · exact ih d hd'
      · simp

/-- Greedy space counting over an all-space block. -/
theorem spacesCount_append {a b : List Char} (ha : ∀ c ∈ a, isSpaceCh c = true) :
    spacesCount (a ++ b) = a.length + spacesCount b := by
  induction a with
  | nil => simp
  | cons c cs ih =>
      have hc := ha c (List.mem_cons_self c cs)
      rw [List.cons_append, spacesCount_cons, if_pos hc,
        ih (fun d hd => ha d (List.mem_cons_of_mem c hd))]
      simp only [List.length_cons]
      omega

/-- A non-space head stops the space run immediately. -/
theorem spacesCount_cons_nonspace {c : Char} {t : List Char}
    (h : isSpaceCh c = false) : spacesCount (c :: t) = 0 := by
  rw [spacesCount_cons, if_neg (by simp [h])]

/-- Decomposition of a match of a literal atom followed by more atoms. -/
theorem runItems_lit_some {p : List Char} {rest : List RItem} {s : List Char} {n : Nat}
    (h : runItems (RItem.lit p :: rest) s = some n) :
    ∃ n1 n2, litM p s = some n1 ∧ runItems rest (s.drop n1) = some n2 ∧ n = n2 + n1 := by
  cases hl : litM p s with
  | none => simp [runItems, hl] at h
  | some n1 =>
      cases hr : runItems rest (s.drop n1) with
      | none => simp [runItems, hl, hr] at h
      | some n2 =>
          simp [runItems, hl, hr] at h
          exact ⟨n1, n2, rfl, hr, h.symm⟩

/-- Decomposition of a match of a possibly-empty whitespace gap. -/
theorem runItems_sp0_some {rest : List RItem} {s : List Char} {n : Nat}
    (h : runItems (RItem.sp0 :: rest) s = some n) :
    ∃ n2, runItems rest (s.drop (spacesCount s)) = some n2 ∧ n = n2 + spacesCount s := by
  cases hr : runItems rest (s.drop (spacesCount s)) with
  | none => simp [runItems, hr] at h
  | some n2 =>
      simp [runItems, hr] at h
      exact ⟨n2, rfl, h.symm⟩

/-- Decomposition of a match of a mandatory whitespace gap. -/
theorem runItems_sp1_some {rest : List RItem} {s : List Char} {n : Nat}
    (h : runItems (RItem.sp1 :: rest) s = some n) :
    spacesCount s ≠ 0 ∧
      ∃ n2, runItems rest (s.drop (spacesCount s)) = some n2 ∧ n = n2 + spacesCount s := by
  by_cases hk : spacesCount s = 0
  · simp [runItems, hk] at h
  · cases hr : runItems rest (s.drop (spacesCount s)) with
    | none => simp [runItems, hk, hr] at h
    | some n2 =>
        simp [runItems, hk, hr] at h
        exact ⟨hk, n2, rfl, h.symm⟩

/-- Introduction form of runItems_lit_some. -/
theorem runItems_lit_intro {p : List Char} {rest : List RItem} {s : List Char} {n1 n2 : Nat}
    (hl : litM p s = some n1) (hr : runItems rest (s.drop n1) = some n2) :
    runItems (RItem.lit p :: rest) s = some (n2 + n1) := by
  simp [runItems, hl, hr]

/-- Introduction form of runItems_sp0_some. -/
theorem runItems_sp0_intro {rest : List RItem} {s : List Char} {n2 : Nat}
    (hr : runItems rest (s.drop (spacesCount s)) = some n2) :
    runItems (RItem.sp0 :: rest) s = some (n2 + spacesCount s) := by
  simp [runItems, hr]

/-- Introduction form of runItems_sp1_some. -/
theorem runItems_sp1_intro {rest : List RItem} {s : List Char} {n2 : Nat}
    (hk : spacesCount s ≠ 0) (hr : runItems rest (s.drop (spacesCount s)) = some n2) :
    runItems (RItem.sp1 :: rest) s = some (n2 + spacesCount s) := by
  simp [runItems, hk, hr]

/-- An atom-list match consumes at most the whole input. -/
theorem runItems_le (items : List RItem) : ∀ (s : List Char) (n : Nat),
    runItems items s = some n → n ≤ s.length := by
  induction items with
  | nil =>
      intro s n h
      simp [runItems] at h
      omega
  | cons it rest ih =>
      intro s n h
      cases it with
      | lit p =>
          obtain ⟨n1, n2, hl, hr, rfl⟩ := runItems_lit_some h
          have h1 := litM_length_le hl
          have h1' := litM_len hl
          have h2 := ih _ _ hr
          rw [List.length_drop] at h2
          omega
      | sp0 =>
          obtain ⟨n2, hr, rfl⟩ := runItems_sp0_some h
          have h2 := ih _ _ hr
          rw [List.length_drop] at h2
          have h3 := spacesCount_le s
          omega
      | sp1 =>
          obtain ⟨-, n2, hr, rfl⟩ := runItems_sp1_some h
          have h2 := ih _ _ hr
          rw [List.length_drop] at h2
          have h3 := spacesCount_le s
          omega

/-- A match of an atom list opening with a literal starts at the literal's
first character. -/
theorem runItems_head {p0 : Char} {p' : List Char} {rest : List RItem}
    {s : List Char} {n : Nat}
    (h : runItems (RItem.lit (p0 :: p') :: rest) s = some n) :
    ∃ c cs, s = c :: cs ∧ Char.toLower c = p0 := by
  obtain ⟨n1, n2, hl, -, -⟩ := runItems_lit_some h
  cases s with
  | nil =>
      rw [litM_nil (by simp)] at hl
      cases hl
  | cons c cs => exact ⟨c, cs, rfl, litM_head hl⟩

/-- A match of an atom list opening with a literal consumes something. -/
theorem runItems_pos {p0 : Char} {p' : List Char} {rest : List RItem}
    {s : List Char} {n : Nat}
    (h : runItems (RItem.lit (p0 :: p') :: rest) s = some n) : 1 ≤ n := by
  obtain ⟨n1, n2, hl, -, rfl⟩ := runItems_lit_some h
  have h1 := litM_len hl
  simp only [List.length_cons] at h1
  omega

/-- An atom list opening with a literal rejects empty input. -/
theorem runItems_nil_none {p0 : Char} {p' : List Char} {rest : List RItem} :
    runItems (RItem.lit (p0 :: p') :: rest) [] = none := by
  simp [runItems, litM_nil (List.cons_ne_nil p0 p')]

/-- Destructor for well-formedness at a literal atom. -/
theorem wfItems_lit {p : List Char} {rest : List RItem}
    (h : wfItems (RItem.lit p :: rest) = true) :
    p ≠ [] ∧ '[' ∉ p ∧ wfItems rest = true := by
  simp only [wfItems, Bool.and_eq_true, decide_eq_true_eq] at h
  exact ⟨h.1.1, h.1.2, h.2⟩

/-- Destructor for well-formedness at an optional gap. -/
theorem wfItems_sp0 {rest : List RItem} (h : wfItems (RItem.sp0 :: rest) = true) :
    headNonSpace rest = true ∧ wfItems rest = true := by
  simpa only [wfItems, Bool.and_eq_true] using h

/-- Destructor for well-formedness at a mandatory gap. -/
theorem wfItems_sp1 {rest : List RItem} (h : wfItems (RItem.sp1 :: rest) = true) :
    headNonSpace rest = true ∧ wfItems rest = true := by
  simpa only [wfItems, Bool.and_eq_true] using h

/-- Shape extracted from the head-non-space side condition. -/
theorem headNonSpace_dest {items : List RItem} (h : headNonSpace items = true) :
    ∃ p0 p' rest, items = RItem.lit (p0 :: p') :: rest ∧ isSpaceCh p0 = false := by
  cases items with
  | nil => cases h
  | cons it rest =>
      cases it with
      | lit p =>
          cases p with
          | nil => cases h
          | cons p0 p' =>
              refine ⟨p0, p', rest, rfl, ?_⟩
              simpa [headNonSpace] using h
      | sp0 => cases h
      | sp1 => cases h

/-- A well-formed atom list never consumes an opening bracket. -/
theorem runItems_nobr (items : List RItem) : ∀ (s : List Char) (n : Nat),
    wfItems items = true → runItems items s = some n → '[' ∉ s.take n := by
  induction items with
  | nil =>
      intro s n hwf h
      simp [runItems] at h
      rw [← h]
      simp
  | cons it rest ih =>
      intro s n hwf h
      cases it with
      | lit p =>
          obtain ⟨hp, hbr, hwfr⟩ := wfItems_lit hwf
          obtain ⟨n1, n2, hl, hr, rfl⟩ := runItems_lit_some h
          rw [show n2 + n1 = n1 + n2 by omega, List.take_add]
          intro hmem
          rcases List.mem_append.mp hmem with hm | hm
          · exact litM_nobr hbr hl hm
          · exact ih _ _ hwfr hr hm
      | sp0 =>
          obtain ⟨hhead, hwfr⟩ := wfItems_sp0 hwf
          obtain ⟨n2, hr, rfl⟩ := runItems_sp0_some h
          rw [show n2 + spacesCount s = spacesCount s + n2 by omega, List.take_add]
          intro hmem
          rcases List.mem_append.mp hmem with hm | hm
          · exact absurd (spacesCount_take_spaces s '[' hm) (by decide)
          · exact ih _ _ hwfr hr hm
      | sp1 =>
          obtain ⟨hhead, hwfr⟩ := wfItems_sp1 hwf
          obtain ⟨-, n2, hr, rfl⟩ := runItems_sp1_some h
          rw [show n2 + spacesCount s = spacesCount s + n2 by omega, List.take_add]
          intro hmem
          rcases List.mem_append.mp hmem with hm | hm
          · exact absurd (spacesCount_take_spaces s '[' hm) (by decide)
          · exact ih _ _ hwfr hr hm

/-- A well-formed atom-list match is determined by the characters it consumed:
replaying on the consumed prefix extended by any suffix matches identically.
Greedy whitespace cannot overrun because each gap is followed, inside the
consumed prefix, by a non-space literal character. -/
theorem runItems_stable (items : List RItem) : ∀ (s : List Char) (n : Nat) (u : List Char),
    wfItems items = true → runItems items s = some n →
    runItems items (s.take n ++ u) = some n := by
  induction items with
  | nil =>
      intro s n u hwf h
      simp [runItems] at h ⊢
      omega
  | cons it rest ih =>
      intro s n u hwf h
      cases it with
      | lit p =>
          obtain ⟨hp, hbr, hwfr⟩ := wfItems_lit hwf
          obtain ⟨n1, n2, hl, hr, rfl⟩ := runItems_lit_some h
          have hn1 := litM_len hl
          have hle := litM_length_le hl
          have hlen1 : (s.take n1).length = n1 := by
            rw [List.length_take]
            omega
          rw [show n2 + n1 = n1 + n2 by omega, List.take_add, List.append_assoc]
          have hout := runItems_lit_intro (litM_stable ((s.drop n1).take n2 ++ u) hl)
            (by rw [List.drop_left' hlen1]; exact ih _ _ _ hwfr hr)
          rw [show n1 + n2 = n2 + n1 by omega]
          exact hout
      | sp0 =>
          obtain ⟨hhead, hwfr⟩ := wfItems_sp0 hwf
          obtain ⟨p0, p', rest2, rfl, hp0⟩ := headNonSpace_dest hhead
          obtain ⟨n2, hr, rfl⟩ := runItems_sp0_some h
          have hkle := spacesCount_le s
          have hn2pos : 1 ≤ n2 := runItems_pos hr
          obtain ⟨c0, cs0, hdrop, hc0⟩ := runItems_head hr
          have hc0ns : isSpaceCh c0 = false := nonspace_of_toLower hp0 hc0
          have hsplit : s.take (n2 + spacesCount s) =
              s.take (spacesCount s) ++ (s.drop (spacesCount s)).take n2 := by
            rw [show n2 + spacesCount s = spacesCount s + n2 by omega, List.take_add]
          have hlenk : (s.take (spacesCount s)).length = spacesCount s := by
            rw [List.length_take]
            omega
          obtain ⟨tl, htl⟩ : ∃ tl, (s.drop (spacesCount s)).take n2 ++ u = c0 :: tl := by
            rw [hdrop]
            cases n2 with
            | zero => omega
            | succ m => exact ⟨cs0.take m ++ u, by rw [List.take_succ_cons, List.cons_append]⟩
          have hsc : spacesCount (s.take (n2 + spacesCount s) ++ u) = spacesCount s := by
            rw [hsplit, List.append_assoc, htl,
              spacesCount_append (spacesCount_take_spaces s),
              spacesCount_cons_nonspace hc0ns, hlenk]
            omega
          have hdrop' : (s.take (n2 + spacesCount s) ++ u).drop
              (spacesCount (s.take (n2 + spacesCount s) ++ u)) =
              (s.drop (spacesCount s)).take n2 ++ u := by
            rw [hsc, hsplit, List.append_assoc, List.drop_left' hlenk]
          have hr' : runItems (RItem.lit (p0 :: p') :: rest2)
              ((s.take (n2 + spacesCount s) ++ u).drop
                (spacesCount (s.take (n2 + spacesCount s) ++ u))) = some n2 := by
            rw [hdrop']
            exact ih _ _ _ hwfr hr
          have hout := runItems_sp0_intro hr'
          rw [hsc] at hout
          exact hout
      | sp1 =>
          obtain ⟨hhead, hwfr⟩ := wfItems_sp1 hwf
          obtain ⟨p0, p', rest2, rfl, hp0⟩ := headNonSpace_dest hhead
          obtain ⟨hk0, n2, hr, rfl⟩ := runItems_sp1_some h
          have hkle := spacesCount_le s
          have hn2pos : 1 ≤ n2 := runItems_pos hr
          obtain ⟨c0, cs0, hdrop, hc0⟩ := runItems_head hr
          have hc0ns : isSpaceCh c0 = false := nonspace_of_toLower hp0 hc0
          have hsplit : s.take (n2 + spacesCount s) =
              s.take (spacesCount s) ++ (s.drop (spacesCount s)).take n2 := by
            rw [show n2 + spacesCount s = spacesCount s + n2 by omega, List.take_add]
          have hlenk : (s.take (spacesCount s)).length = spacesCount s := by
            rw [List.length_take]
            omega
          obtain ⟨tl, htl⟩ : ∃ tl, (s.drop (spacesCount s)).take n2 ++ u = c0 :: tl := by
            rw [hdrop]
            cases n2 with
            | zero => omega
            | succ m => exact ⟨cs0.take m ++ u, by rw [List.take_succ_cons, List.cons_append]⟩
          have hsc : spacesCount (s.take (n2 + spacesCount s) ++ u) = spacesCount s := by
            rw [hsplit, List.append_assoc, htl,
              spacesCount_append (spacesCount_take_spaces s),
              spacesCount_cons_nonspace hc0ns, hlenk]
            omega
          have hdrop' : (s.take (n2 + spacesCount s) ++ u).drop
              (spacesCount (s.take (n2 + spacesCount s) ++ u)) =
              (s.drop (spacesCount s)).take n2 ++ u := by
            rw [hsc, hsplit, List.append_assoc, List.drop_left' hlenk]
          have hr' : runItems (RItem.lit (p0 :: p') :: rest2)
              ((s.take (n2 + spacesCount s) ++ u).drop
                (spacesCount (s.take (n2 + spacesCount s) ++ u))) = some n2 := by
            rw [hdrop']
            exact ih _ _ _ hwfr hr
          have hout := runItems_sp1_intro (by rw [hsc]; exact hk0) hr'
          rw [hsc] at hout
          exact hout

/-- Every well-formed atom list opening with a literal whose first character
does not occur (lowercased) in the replacement text is a MatcherOK matcher. -/
theorem matcherOK_runItems (p0 : Char) (p' : List Char) (rest : List RItem)
    (hwf : wfItems (RItem.lit (p0 :: p') :: rest) = true)
    (hred : ∀ c ∈ RED, Char.toLower c ≠ p0) :
    MatcherOK (runItems (RItem.lit (p0 :: p') :: rest)) := by
  refine ⟨?_, ?_, ?_, ?_, ?_⟩
  · exact runItems_nil_none
  · intro s n h
    exact ⟨runItems_pos h, runItems_le _ _ _ h⟩
  · intro s n t h
    exact runItems_stable _ _ _ _ hwf h
  · intro s n h
    exact runItems_nobr _ _ _ hwf h
  · intro u t hne hsuf
    cases u with
    | nil => exact absurd rfl hne
    | cons c u' =>
        have hc : c ∈ RED := hsuf.subset (List.mem_cons_self c u')
        cases hres : runItems (RItem.lit (p0 :: p') :: rest) ((c :: u') ++ t) with
        | none => rfl
        | some n =>
            obtain ⟨c', cs', heq, hlow⟩ := runItems_head hres
            rw [List.cons_append] at heq
            rw [← (List.cons.inj heq).1] at hlow
            exact absurd hlow (hred c hc)

/-- The pattern r"system\s*:" satisfies the matcher contract. -/
theorem mSystemColon_OK : MatcherOK mSystemColon :=
  matcherOK_runItems 's' "ystem".toList [RItem.sp0, RItem.lit ":".toList]
    (by decide) (by decide)

/-- The pattern r"<\|im_start\|>" satisfies the matcher contract. -/
theorem mImStart_OK : MatcherOK mImStart :=
  matcherOK_runItems '<' "|im_start|>".toList [] (by decide) (by decide)

/-- The pattern r"<\|im_end\|>" satisfies the matcher contract. -/
theorem mImEnd_OK : MatcherOK mImEnd :=
  matcherOK_runItems '<' "|im_end|>".toList [] (by decide) (by decide)

/-- The pattern r"<\|endoftext\|>" satisfies the matcher contract. -/
theorem mEndOfText_OK : MatcherOK mEndOfText :=
  matcherOK_runItems '<' "|endoftext|>".toList [] (by decide) (by decide)

/-- The backquote-fence pattern satisfies the matcher contract. -/
theorem mFenceSystem_OK : MatcherOK mFenceSystem :=
  matcherOK_runItems '\x60' (List.replicate 2 '\x60')
    [RItem.sp0, RItem.lit "system".toList] (by decide) (by decide)

/-- Unfolding equation of the ignore-instructions matcher. -/
theorem mIgnore_eq (s : List Char) :
    mIgnore s = (litM "ignore".toList s).bind fun n1 =>
      if spacesCount (s.drop n1) = 0 then none
      else
        (runItems
          (if (litM "all".toList ((s.drop n1).drop (spacesCount (s.drop n1)))).isSome then
            RItem.lit "all".toList :: RItem.sp1 :: mPrevTail
          else mPrevTail)
          ((s.drop n1).drop (spacesCount (s.drop n1)))).map
          (fun m => n1 + spacesCount (s.drop n1) + m) := rfl

/-- Decomposition of a match of the ignore-instructions pattern. -/
theorem mIgnore_some {s : List Char} {n : Nat} (h : mIgnore s = some n) :
    ∃ n1 m, litM "ignore".toList s = some n1 ∧
      spacesCount (s.drop n1) ≠ 0 ∧
      runItems
        (if (litM "all".toList ((s.drop n1).drop (spacesCount (s.drop n1)))).isSome then
          RItem.lit "all".toList :: RItem.sp1 :: mPrevTail
        else mPrevTail)
        ((s.drop n1).drop (spacesCount (s.drop n1))) = some m ∧
      n = n1 + spacesCount (s.drop n1) + m := by
  rw [mIgnore_eq] at h
  cases hl : litM "ignore".toList s with
  | none =>
      rw [hl, Option.none_bind'] at h
      cases h
  | some n1 =>
      rw [hl, Option.some_bind'] at h
      by_cases hk : spacesCount (s.drop n1) = 0
      · rw [if_pos hk] at h
        cases h
      · rw [if_neg hk] at h
        cases hr : runItems
            (if (litM "all".toList ((s.drop n1).drop (spacesCount (s.drop n1)))).isSome then
              RItem.lit "all".toList :: RItem.sp1 :: mPrevTail
            else mPrevTail)
            ((s.drop n1).drop (spacesCount (s.drop n1))) with
        | none =>
            rw [hr] at h
            cases h
        | some m =>
            rw [hr, Option.map_some'] at h
            exact ⟨n1, m, rfl, hk, hr, (Option.some.inj h).symm⟩

/-- Introduction form of mIgnore_some. -/
theorem mIgnore_intro {s : List Char} {n1 m : Nat}
    (hl : litM "ignore".toList s = some n1)
    (hk : spacesCount (s.drop n1) ≠ 0)
    (hr : runItems
        (if (litM "all".toList ((s.drop n1).drop (spacesCount (s.drop n1)))).isSome then
          RItem.lit "all".toList :: RItem.sp1 :: mPrevTail
        else mPrevTail)
        ((s.drop n1).drop (spacesCount (s.drop n1))) = some m) :
    mIgnore s = some (n1 + spacesCount (s.drop n1) + m) := by
  rw [mIgnore_eq, hl, Option.some_bind', if_neg hk, hr, Option.map_some']

/-- The ignore-instructions pattern satisfies the matcher contract. -/
theorem mIgnore_OK : MatcherOK mIgnore := by
  have hwfG : wfItems (RItem.lit "all".toList :: RItem.sp1 :: mPrevTail) = true := by decide
  have hwfP : wfItems mPrevTail = true := by decide
  refine ⟨?_, ?_, ?_, ?_, ?_⟩
  · -- empty input
    rw [mIgnore_eq, litM_nil (show "ignore".toList ≠ [] by decide), Option.none_bind']
  · -- positive, bounded consumption
    intro s n h
    obtain ⟨n1, m, hl, hk, hr, rfl⟩ := mIgnore_some h
    have h1 := litM_len hl
    have h2 := litM_length_le hl
    have h3 := runItems_le _ _ _ hr
    have h4 := spacesCount_le (s.drop n1)
    have h6 : ("ignore".toList).length = 6 := by decide
    simp only [List.length_drop] at h3 h4
    constructor
    · omega
    · omega
  · -- stability
    intro s n u h
    obtain ⟨n1, m, hl, hk, hr, rfl⟩ := mIgnore_some h
    have h1 := litM_len hl
    have h2 := litM_length_le hl
    have hkle := spacesCount_le (s.drop n1)
    have hmle := runItems_le _ _ _ hr
    simp only [List.length_drop] at hkle hmle
    have hsplit1 : s.take (n1 + spacesCount (s.drop n1) + m) =
        s.take n1 ++ (s.drop n1).take (spacesCount (s.drop n1) + m) := by
      rw [show n1 + spacesCount (s.drop n1) + m = n1 + (spacesCount (s.drop n1) + m) by omega,
        List.take_add]
    have hsplit2 : (s.drop n1).take (spacesCount (s.drop n1) + m) =
        (s.drop n1).take (spacesCount (s.drop n1)) ++
          ((s.drop n1).drop (spacesCount (s.drop n1))).take m := by
      rw [List.take_add]
    have hlen1 : (s.take n1).length = n1 := by
      rw [List.length_take]
      omega
    have hlenk : ((s.drop n1).take (spacesCount (s.drop n1))).length =
        spacesCount (s.drop n1) := by
      rw [List.length_take, List.length_drop]
      omega
    have hs'eq : s.take (n1 + spacesCount (s.drop n1) + m) ++ u =
        s.take n1 ++ ((s.drop n1).take (spacesCount (s.drop n1)) ++
          (((s.drop n1).drop (spacesCount (s.drop n1))).take m ++ u)) := by
      rw [hsplit1, hsplit2]
      simp [List.append_assoc]
    -- the replayed tail input
    have hl' : litM "ignore".toList (s.take (n1 + spacesCount (s.drop n1) + m) ++ u)
        = some n1 := by
      rw [hs'eq]
      exact litM_stable _ hl
    have hdropn1 : (s.take (n1 + spacesCount (s.drop n1) + m) ++ u).drop n1 =
        (s.drop n1).take (spacesCount (s.drop n1)) ++
          (((s.drop n1).drop (spacesCount (s.drop n1))).take m ++ u) := by
      rw [hs'eq, List.drop_left' hlen1]
    -- head character of the consumed tail, which pins the replayed space run
    by_cases hall : (litM "all".toList ((s.drop n1).drop (spacesCount (s.drop n1)))).isSome
    · rw [if_pos hall] at hr
      have hm1 : 1 ≤ m := runItems_pos hr
      obtain ⟨c0, cs0, hs2eq, hc0⟩ := runItems_head hr
      have hc0ns : isSpaceCh c0 = false := nonspace_of_toLower (by decide) hc0
      obtain ⟨tl, htl⟩ : ∃ tl,
          ((s.drop n1).drop (spacesCount (s.drop n1))).take m ++ u = c0 :: tl := by
        rw [hs2eq]
        cases m with
        | zero => omega
        | succ mm => exact ⟨cs0.take mm ++ u, by rw [List.take_succ_cons, List.cons_append]⟩
      have hsc : spacesCount ((s.take (n1 + spacesCount (s.drop n1) + m) ++ u).drop n1) =
          spacesCount (s.drop n1) := by
        rw [hdropn1, htl, spacesCount_append (spacesCount_take_spaces (s.drop n1)),
          spacesCount_cons_nonspace hc0ns, hlenk]
        omega
      have hdropk : ((s.take (n1 + spacesCount (s.drop n1) + m) ++ u).drop n1).drop
          (spacesCount ((s.take (n1 + spacesCount (s.drop n1) + m) ++ u).drop n1)) =
          ((s.drop n1).drop (spacesCount (s.drop n1))).take m ++ u := by
        rw [hsc, hdropn1, List.drop_left' hlenk]
      have hr' := runItems_stable _ _ _ u hwfG hr
      obtain ⟨m1', m2', hal', -, -⟩ := runItems_lit_some hr'
      have hallrep : (litM "all".toList
          (((s.drop n1).drop (spacesCount (s.drop n1))).take m ++ u)).isSome = true := by
        rw [hal']
        rfl
      have hout := mIgnore_intro hl'
        (by rw [hsc]; exact hk)
        (by rw [hdropk, if_pos hallrep]; exact hr')
      rw [hsc] at hout
      exact hout
    · rw [if_neg hall] at hr
      have hm1 : 1 ≤ m := runItems_pos hr
      obtain ⟨c0, cs0, hs2eq, hc0⟩ := runItems_head hr
      have hc0ns : isSpaceCh c0 = false := nonspace_of_toLower (by decide) hc0
      obtain ⟨tl, htl⟩ : ∃ tl,
          ((s.drop n1).drop (spacesCount (s.drop n1))).take m ++ u = c0 :: tl := by
        rw [hs2eq]
        cases m with
        | zero => omega
        | succ mm => exact ⟨cs0.take mm ++ u, by rw [List.take_succ_cons, List.cons_append]⟩
      have hsc : spacesCount ((s.take (n1 + spacesCount (s.drop n1) + m) ++ u).drop n1) =
          spacesCount (s.drop n1) := by
        rw [hdropn1, htl, spacesCount_append (spacesCount_take_spaces (s.drop n1)),
          spacesCount_cons_nonspace hc0ns, hlenk]
        omega
      have hdropk : ((s.take (n1 + spacesCount (s.drop n1) + m) ++ u).drop n1).drop
          (spacesCount ((s.take (n1 + spacesCount (s.drop n1) + m) ++ u).drop n1)) =
          ((s.drop n1).drop (spacesCount (s.drop n1))).take m ++ u := by
        rw [hsc, hdropn1, List.drop_left' hlenk]
      have hr' := runItems_stable _ _ _ u hwfP hr
      obtain ⟨c1, cs1, hout1, hlow1⟩ := runItems_head hr'
      have hallrep : (litM "all".toList
          (((s.drop n1).drop (spacesCount (s.drop n1))).take m ++ u)).isSome = false := by
        rw [hout1, show ("all".toList : List Char) = 'a' :: 'l' :: 'l' :: [] from rfl,
          litM_head_ne (by rw [hlow1]; decide)]
        rfl
      have hout := mIgnore_intro hl'
        (by rw [hsc]; exact hk)
        (by rw [hdropk, if_neg (by rw [hallrep]; exact Bool.false_ne_true)]; exact hr')
      rw [hsc] at hout
      exact hout
  · -- no opening bracket consumed
    intro s n h
    obtain ⟨n1, m, hl, hk, hr, rfl⟩ := mIgnore_some h
    have h1 := litM_len hl
    have h2 := litM_length_le hl
    have hkle := spacesCount_le (s.drop n1)
    rw [show n1 + spacesCount (s.drop n1) + m = n1 + (spacesCount (s.drop n1) + m) by omega,
      List.take_add, List.take_add]
    intro hmem
    rcases List.mem_append.mp hmem with hm | hm
    · exact litM_nobr (by decide) hl hm
    · rcases List.mem_append.mp hm with hm' | hm'
      · exact absurd (spacesCount_take_spaces (s.drop n1) '[' hm') (by decide)
      · by_cases hall : (litM "all".toList ((s.drop n1).drop (spacesCount (s.drop n1)))).isSome
        · rw [if_pos hall] at hr
          exact runItems_nobr _ _ _ (by decide) hr hm'
        · rw [if_neg hall] at hr
          exact runItems_nobr _ _ _ (by decide) hr hm'
  · -- cannot start inside the replacement text
    intro u t hne hsuf
    cases u with
    | nil => exact absurd rfl hne
    | cons c u' =>
        have hc : c ∈ RED := hsuf.subset (List.mem_cons_self c u')
        cases hres : mIgnore ((c :: u') ++ t) with
        | none => rfl
        | some n =>
            obtain ⟨n1, m, hl, -, -, -⟩ := mIgnore_some hres
            rw [List.cons_append] at hl
            have hred : ∀ d ∈ RED, Char.toLower d ≠ 'i' := by decide
            exact absurd (litM_head hl) (hred c hc)

/-- Substitution on the empty input. -/
theorem subAll_nil (m : List Char → Option Nat) (r : List Char) :
    subAll m r [] = [] := by
  simp [subAll]

/-- Substitution steps over an unmatched head character. -/
theorem subAll_cons_none {m : List Char → Option Nat} {r : List Char}
    {c : Char} {cs : List Char} (h : m (c :: cs) = none) :
    subAll m r (c :: cs) = c :: subAll m r cs := by
  rw [subAll, h]

/-- A zero-length match is treated as no match (our matchers exclude it). -/
theorem subAll_cons_some_zero {m : List Char → Option Nat} {r : List Char}
    {c : Char} {cs : List Char} (h : m (c :: cs) = some 0) :
    subAll m r (c :: cs) = c :: subAll m r cs := by
  rw [subAll, h]

/-- Substitution replaces a leftmost match and resumes after it. -/
theorem subAll_cons_some_succ {m : List Char → Option Nat} {r : List Char}
    {c : Char} {cs : List Char} {n : Nat} (h : m (c :: cs) = some (n + 1)) :
    subAll m r (c :: cs) = r ++ subAll m r (cs.drop n) := by
  rw [subAll, h]

/-- Dropping inside a match-free text stays match-free. -/
theorem noMatchIn_cons {m : List Char → Option Nat} {c : Char} {cs : List Char}
    (h : NoMatchIn m (c :: cs)) : NoMatchIn m cs :=
  fun i => h (i + 1)

/-- Substitution is the identity on match-free text. -/
theorem subAll_of_noMatch (m : List Char → Option Nat) (r : List Char) :
    ∀ t, NoMatchIn m t → subAll m r t = t := by
  intro t
  induction t with
  | nil => intro _; exact subAll_nil m r
  | cons c cs ih =>
      intro h
      rw [subAll_cons_none (h 0), ih (noMatchIn_cons h)]

/-- Prepending the same character preserves prefix agreement. -/
theorem agreeUB_cons {a b : List Char} (c : Char) (h : AgreeUB a b) :
    AgreeUB (c :: a) (c :: b) := by
  obtain ⟨k, htake, hb⟩ := h
  refine ⟨k + 1, ?_, ?_⟩
  · rw [List.take_succ_cons, List.take_succ_cons, htake]
  · rcases hb with hl | hg
    · left
      simp [hl]
    · right
      simpa using hg

/-- A replacement block agrees with anything up to its opening bracket. -/
theorem agreeUB_red (x t : List Char) : AgreeUB (RED ++ x) t :=
  ⟨0, rfl, Or.inr rfl⟩

/-- The substitution output agrees with its input up to end or bracket. -/
theorem subAll_agreeUB (m' : List Char → Option Nat) :
    ∀ (N : Nat) (t : List Char), t.length ≤ N → AgreeUB (subAll m' RED t) t := by
  intro N
  induction N with
  | zero =>
      intro t ht
      obtain rfl : t = [] := List.length_eq_zero.mp (Nat.le_zero.mp ht)
      rw [subAll_nil]
      exact ⟨0, rfl, Or.inl rfl⟩
  | succ N ih =>
      intro t ht
      cases t with
      | nil =>
          rw [subAll_nil]
          exact ⟨0, rfl, Or.inl rfl⟩
      | cons c cs =>
          simp only [List.length_cons] at ht
          cases hm : m' (c :: cs) with
          | none =>
              rw [subAll_cons_none hm]
              exact agreeUB_cons c (ih cs (by omega))
          | some n =>
              cases n with
              | zero =>
                  rw [subAll_cons_some_zero hm]
                  exact agreeUB_cons c (ih cs (by omega))
              | succ n0 =>
                  rw [subAll_cons_some_succ hm]
                  exact agreeUB_red _ _

/-- Closed form of subAll_agreeUB. -/
theorem subAll_agreeUB' (m' : List Char → Option Nat) (t : List Char) :
    AgreeUB (subAll m' RED t) t :=
  subAll_agreeUB m' t.length t le_rfl

/-- Transfer: a MatcherOK matcher that rejects the input everywhere rejects
the substitution output at the agreeing position as well, since its match
would be bracket-free and hence lie inside the common prefix. -/
theorem noCreate (m : List Char → Option Nat) (hm : MatcherOK m)
    (a b : List Char) (hab : AgreeUB a b) (hb : m b = none) : m a = none := by
  cases hma : m a with
  | none => rfl
  | some n =>
      exfalso
      obtain ⟨hpos, hlen⟩ := hm.pos a n hma
      obtain ⟨k, htake, hbound⟩ := hab
      have hnk : n ≤ k := by
        by_contra hgt
        push_neg at hgt
        rcases hbound with hl | hg
        · omega
        · have hmemtake : (a.take n).get? k = some '[' := by
            rw [List.get?_take hgt]
            exact hg
          exact hm.nobr a n hma (List.get?_mem hmemtake)
      have hteq : a.take n = b.take n := by
        calc a.take n = (a.take k).take n := by rw [List.take_take, min_eq_left hnk]
          _ = (b.take k).take n := by rw [htake]
          _ = b.take n := by rw [List.take_take, min_eq_left hnk]
      have hstab := hm.stable a n (b.drop n) hma
      rw [hteq, List.take_append_drop, hb] at hstab
      cases hstab

/-- The output of a matcher's own substitution pass has no match of it. -/
theorem noMatchIn_subAll_self (m : List Char → Option Nat) (hm : MatcherOK m) :
    ∀ (N : Nat) (t : List Char), t.length ≤ N → NoMatchIn m (subAll m RED t) := by
  intro N
  induction N with
  | zero =>
      intro t ht
      obtain rfl : t = [] := List.length_eq_zero.mp (Nat.le_zero.mp ht)
      rw [subAll_nil]
      intro i
      rw [List.drop_nil]
      exact hm.nil
  | succ N ih =>
      intro t ht
      cases t with
      | nil =>
          rw [subAll_nil]
          intro i
          rw [List.drop_nil]
          exact hm.nil
      | cons c cs =>
          simp only [List.length_cons] at ht
          cases hmc : m (c :: cs) with
          | none =>
              rw [subAll_cons_none hmc]
              intro i
              cases i with
              | zero =>
                  rw [List.drop_zero]
                  exact noCreate m hm _ _ (agreeUB_cons c (subAll_agreeUB' m cs)) hmc
              | succ i => exact ih cs (by omega) i
          | some n =>
              cases n with
              | zero => exact absurd (hm.pos _ _ hmc).1 (by omega)
              | succ n0 =>
                  rw [subAll_cons_some_succ hmc]
                  intro i
                  by_cases hi : i < RED.length
                  · rw [List.drop_append_of_le_length (by omega)]
                    apply hm.rsafe
                    · intro hnil
                      have hld := List.length_drop i RED
                      rw [hnil] at hld
                      simp at hld
                      omega
                    · exact List.drop_suffix i RED
                  · push_neg at hi
                    obtain ⟨j, rfl⟩ := Nat.exists_eq_add_of_le hi
                    rw [List.drop_append]
                    exact ih (cs.drop n0) (by simp [List.length_drop]; omega) j

/-- A substitution pass of any other matcher preserves match-freeness. -/
theorem noMatchIn_subAll_other (m : List Char → Option Nat) (hm : MatcherOK m)
    (m' : List Char → Option Nat) :
    ∀ (N : Nat) (t : List Char), t.length ≤ N → NoMatchIn m t →
      NoMatchIn m (subAll m' RED t) := by
  intro N
  induction N with
  | zero =>
      intro t ht h
      obtain rfl : t = [] := List.length_eq_zero.mp (Nat.le_zero.mp ht)
      rw [subAll_nil]
      exact h
  | succ N ih =>
      intro t ht h
      cases t with
      | nil =>
          rw [subAll_nil]
          exact h
      | cons c cs =>
          simp only [List.length_cons] at ht
          cases hmc : m' (c :: cs) with
          | none =>
              rw [subAll_cons_none hmc]
              intro i
              cases i with
              | zero =>
                  rw [List.drop_zero]
                  exact noCreate m hm _ _ (agreeUB_cons c (subAll_agreeUB' m' cs)) (h 0)
              | succ i => exact ih cs (by omega) (noMatchIn_cons h) i
          | some n =>
              cases n with
              | zero =>
                  rw [subAll_cons_some_zero hmc]
                  intro i
                  cases i with
                  | zero =>
                      rw [List.drop_zero]
                      exact noCreate m hm _ _ (agreeUB_cons c (subAll_agreeUB' m' cs)) (h 0)
                  | succ i => exact ih cs (by omega) (noMatchIn_cons h) i
              | succ n0 =>
                  rw [subAll_cons_some_succ hmc]
                  intro i
                  by_cases hi : i < RED.length
                  · rw [List.drop_append_of_le_length (by omega)]
                    apply hm.rsafe
                    · intro hnil
                      have hld := List.length_drop i RED
                      rw [hnil] at hld
                      simp at hld
                      omega
                    · exact List.drop_suffix i RED
                  · push_neg at hi
                    obtain ⟨j, rfl⟩ := Nat.exists_eq_add_of_le hi
                    rw [List.drop_append]
                    refine ih (cs.drop n0) (by simp [List.length_drop]; omega) ?_ j
                    intro j'
                    rw [List.drop_drop]
                    exact h (n0 + j' + 1)

/-- Closed form of noMatchIn_subAll_self. -/
theorem noMatchIn_subAll (m : List Char → Option Nat) (hm : MatcherOK m)
    (t : List Char) : NoMatchIn m (subAll m RED t) :=
  noMatchIn_subAll_self m hm t.length t le_rfl

/-- Closed form of noMatchIn_subAll_other. -/
theorem noMatchIn_subAll_pres (m : List Char → Option Nat) (hm : MatcherOK m)
    (m' : List Char → Option Nat) (t : List Char) (h : NoMatchIn m t) :
    NoMatchIn m (subAll m' RED t) :=
  noMatchIn_subAll_other m hm m' t.length t le_rfl h

/-- C9: input sanitization is idempotent - applying sanitize_input twice
yields the same string as applying it once, for every input string - and it
is total by construction (a Lean function, it always returns a string).
The output of one pass contains no further match of any of the six injection
patterns: each pattern's own pass removes all its matches, the replacement
text "[REDACTED]" cannot take part in a match (no pattern matches a bracket
or any substring of the replacement), and later passes only splice further
replacement blocks into text the earlier matcher had already rejected. -/
theorem C9_sanitize_idempotent (x : String) :
    sanitize_input (sanitize_input x) = sanitize_input x := by
  have exp : ∀ y : String, sanitize_input y = String.mk
      (subAll mFenceSystem RED (subAll mEndOfText RED (subAll mImEnd RED
        (subAll mImStart RED (subAll mSystemColon RED
          (subAll mIgnore RED y.toList)))))) := fun _ => rfl
  rw [exp (sanitize_input x), exp x]
  set L1 := subAll mIgnore RED x.toList with hL1
  set L2 := subAll mSystemColon RED L1 with hL2
  set L3 := subAll mImStart RED L2 with hL3
  set L4 := subAll mImEnd RED L3 with hL4
  set L5 := subAll mEndOfText RED L4 with hL5
  set L6 := subAll mFenceSystem RED L5 with hL6
  have a1 : NoMatchIn mIgnore L1 := noMatchIn_subAll mIgnore mIgnore_OK x.toList
  have a2 : NoMatchIn mIgnore L2 := noMatchIn_subAll_pres _ mIgnore_OK mSystemColon L1 a1
  have a3 : NoMatchIn mIgnore L3 := noMatchIn_subAll_pres _ mIgnore_OK mImStart L2 a2
  have a4 : NoMatchIn mIgnore L4 := noMatchIn_subAll_pres _ mIgnore_OK mImEnd L3 a3
  have a5 : NoMatchIn mIgnore L5 := noMatchIn_subAll_pres _ mIgnore_OK mEndOfText L4 a4
  have a6 : NoMatchIn mIgnore L6 := noMatchIn_subAll_pres _ mIgnore_OK mFenceSystem L5 a5
  have b2 : NoMatchIn mSystemColon L2 := noMatchIn_subAll mSystemColon mSystemColon_OK L1
  have b3 : NoMatchIn mSystemColon L3 :=
    noMatchIn_subAll_pres _ mSystemColon_OK mImStart L2 b2
  have b4 : NoMatchIn mSystemColon L4 :=
    noMatchIn_subAll_pres _ mSystemColon_OK mImEnd L3 b3
  have b5 : NoMatchIn mSystemColon L5 :=
    noMatchIn_subAll_pres _ mSystemColon_OK mEndOfText L4 b4
  have b6 : NoMatchIn mSystemColon L6 :=
    noMatchIn_subAll_pres _ mSystemColon_OK mFenceSystem L5 b5
  have c3 : NoMatchIn mImStart L3 := noMatchIn_subAll mImStart mImStart_OK L2
  have c4 : NoMatchIn mImStart L4 := noMatchIn_subAll_pres _ mImStart_OK mImEnd L3 c3
  have c5 : NoMatchIn mImStart L5 := noMatchIn_subAll_pres _ mImStart_OK mEndOfText L4 c4
  have c6 : NoMatchIn mImStart L6 := noMatchIn_subAll_pres _ mImStart_OK mFenceSystem L5 c5
  have d4 : NoMatchIn mImEnd L4 := noMatchIn_subAll mImEnd mImEnd_OK L3
  have d5 : NoMatchIn mImEnd L5 := noMatchIn_subAll_pres _ mImEnd_OK mEndOfText L4 d4
  have d6 : NoMatchIn mImEnd L6 := noMatchIn_subAll_pres _ mImEnd_OK mFenceSystem L5 d5
  have e5 : NoMatchIn mEndOfText L5 := noMatchIn_subAll mEndOfText mEndOfText_OK L4
  have e6 : NoMatchIn mEndOfText L6 := noMatchIn_subAll_pres _ mEndOfText_OK mFenceSystem L5 e5
  have f6 : NoMatchIn mFenceSystem L6 := noMatchIn_subAll mFenceSystem mFenceSystem_OK L5
  refine congrArg String.mk ?_
  rw [show (String.mk L6).toList = L6 from rfl]
  rw [subAll_of_noMatch mIgnore RED L6 a6,
    subAll_of_noMatch mSystemColon RED L6 b6,
    subAll_of_noMatch mImStart RED L6 c6,
    subAll_of_noMatch mImEnd RED L6 d6,
    subAll_of_noMatch mEndOfText RED L6 e6,
    subAll_of_noMatch mFenceSystem RED L6 f6]

end MultiAgent
